import Mathlib

/-!
# The query layer of the code-property-graph dashboard (`web/queries.go`)

A shallow embedding of the six read operations of `web/queries.go`
(`queryStats`, `queryModules`, `queryPackages`, `queryPackageGraph`,
`queryPackagesByModule`, `queryPackageFunctions`) together with the part of
SQLite and of Go's `database/sql` that their behaviour depends on:

* the `LIKE` operator as SQLite evaluates it without `PRAGMA
  case_sensitive_like` (`main.go` sets no such pragma): `%` stands for any run
  of characters, `_` for exactly one character, every other pattern character
  matches itself up to ASCII case;
* `WHERE`, `GROUP BY`, `ORDER BY`, `COUNT`, `SUM`, `DISTINCT`, `LEFT JOIN` and
  `ROW_NUMBER() OVER (PARTITION BY .. ORDER BY ..)` on finite tables;
* the three ways a `database/sql` read fails: `db.Query` returns an error,
  `rows.Scan` fails on a row, `rows.Err()` reports an error after the loop.

Go functions return a pair `(value, error)`; the embedding returns
`value × Option Error`, so that the value accompanying an error is visible.
-/

namespace Graph

/-! ## Go errors -/

/-- A Go `error` value: either an error produced by the store (the
`database/sql` driver), or `fmt.Errorf(msg + ": %w", cause)`. -/
inductive Error where
  | store (msg : String)
  | wrap (msg : String) (cause : Error)
  deriving DecidableEq, Repr

/-- The text of `err.Error()`. -/
def Error.message : Error → String
  | .store m => m
  | .wrap m c => m ++ ": " ++ c.message

/-- The result of `errors.Unwrap(err)`. -/
def Error.unwrap : Error → Option Error
  | .store _ => none
  | .wrap _ c => some c

/-! ## SQLite `LIKE` -/

/-- The ASCII lower-casing SQLite applies to both sides of a `LIKE`
comparison (`A`..`Z` only). -/
def asciiLower (c : Char) : Char :=
  if 65 ≤ c.toNat ∧ c.toNat ≤ 90 then Char.ofNat (c.toNat + 32) else c

/-- A literal pattern character `p` matches the text character `c`. -/
def likeChar (p c : Char) : Bool :=
  asciiLower p == asciiLower c

/-- The function `f` accepts some suffix of the text (what follows a `%`). -/
def likeAnyTail (f : List Char → Bool) : List Char → Bool
  | [] => f []
  | c :: cs => f (c :: cs) || likeAnyTail f cs

/-- The matcher of `text LIKE pattern` (first argument: the pattern), with no
`ESCAPE` clause: `%` matches any run of characters, `_` any single character,
any other character itself up to ASCII case. -/
def likeMatch : List Char → List Char → Bool
  | [], t => t.isEmpty
  | p :: ps, t =>
    if p = '%' then likeAnyTail (likeMatch ps) t
    else
      match t with
      | [] => false
      | c :: cs => (p == '_' || likeChar p c) && likeMatch ps cs

/-- The SQL expression `text LIKE pattern` on two non-NULL text values. Text
values are taken to hold no NUL character, at which SQLite's text functions
stop reading. -/
def sqlLike (text pattern : String) : Bool :=
  likeMatch pattern.toList text.toList

/-! ## Module classification (the `CASE` cascade of `queryStats` and `queryModules`) -/

/-- The pattern bound by `queryPackagesByModule` for the module `prometheus`
and the first `WHEN` of the cascade. -/
def patPrometheus : String := "%/prometheus/prometheus/%"

/-- The pattern of the module `client_golang`. -/
def patClientGolang : String := "%client_golang%"

/-- The pattern of the module `adapter`. -/
def patAdapter : String := "%prometheus-adapter%"

/-- The pattern of the module `alertmanager`. -/
def patAlertmanager : String := "%alertmanager%"

/-- The expression `CASE WHEN package LIKE .. THEN .. ELSE 'other' END`. -/
def classify (package : String) : String :=
  if sqlLike package patPrometheus then "prometheus"
  else if sqlLike package patClientGolang then "client_golang"
  else if sqlLike package patAdapter then "adapter"
  else if sqlLike package patAlertmanager then "alertmanager"
  else "other"

/-- The text `sub` occurs in `p` as a contiguous, literal substring. -/
def containsSubstr (p sub : String) : Bool :=
  decide (sub.toList <:+: p.toList)

/-- The classifier as the specification words it: ordered substring
containment, first match wins. -/
def classifySpec (p : String) : String :=
  if containsSubstr p "/prometheus/prometheus/" then "prometheus"
  else if containsSubstr p "client_golang" then "client_golang"
  else if containsSubstr p "prometheus-adapter" then "adapter"
  else if containsSubstr p "alertmanager" then "alertmanager"
  else "other"

/-! ## The store -/

/-- A row of the table `nodes` (the columns the queries read). -/
structure Node where
  kind : String
  name : String
  file : Option String
  line : Option Int
  package : Option String
  deriving DecidableEq, Repr

/-- A row of the table `edges`; the queries only count these rows. -/
structure Edge where
  source : String
  target : String
  weight : Int
  deriving DecidableEq, Repr

/-- A row of the aggregate `dashboard_package_treemap` (the per-package rollup). -/
structure Rollup where
  package : String
  file_count : Int
  function_count : Int
  type_count : Int
  total_loc : Int
  total_complexity : Int
  deriving DecidableEq, Repr

/-- A row of the aggregate `dashboard_package_graph` (a dependency edge). -/
structure DepEdge where
  source : String
  target : String
  weight : Int
  deriving DecidableEq, Repr

/-- The call sites of `db.Query` and `db.QueryRow` in `queries.go`. -/
inductive QueryId where
  | statsNodes | statsEdges | statsPackages | statsFunctions | statsFiles | statsModules
  | modules | packages | graphEdges | graphTreemap | packagesByModule | packageFunctions
  deriving DecidableEq, Repr

/-- How a read of the store goes wrong: not at all, when the query is issued,
when the row with index `i` is scanned, or after `k` rows with an error that
`rows.Err()` reports. A failure SQLite raises while it evaluates a statement
(such as the integer overflow of `SUM`) is one of these. -/
inductive Fault where
  | none
  | query (e : Error)
  | scan (i : Nat) (e : Error)
  | iter (k : Nat) (e : Error)
  deriving DecidableEq, Repr

/-- The store: its four tables and, for every call site, how the read there
behaves. -/
structure Store where
  nodes : List Node
  edges : List Edge
  treemap : List Rollup
  graph : List DepEdge
  fault : QueryId → Fault

/-- The value `*sql.Rows`: what each `rows.Next()`/`rows.Scan` pair yields, and
the value of `rows.Err()` once `rows.Next()` has returned false. -/
structure Rows (α : Type) where
  items : List (Except Error α)
  err : Option Error

/-- The rows of a result in which the scan of row `i` fails with `e`. -/
def scanFaultAt {α : Type} (e : Error) : Nat → List α → List (Except Error α)
  | _, [] => []
  | 0, _ :: xs => Except.error e :: xs.map Except.ok
  | i + 1, x :: xs => Except.ok x :: scanFaultAt e i xs

/-- The call `db.Query(..)` at the call site `q`, whose statement evaluates to
`result` on the tables. -/
def Store.query {α : Type} (db : Store) (q : QueryId) (result : List α) :
    Except Error (Rows α) :=
  match db.fault q with
  | Fault.none => Except.ok ⟨result.map Except.ok, none⟩
  | Fault.query e => Except.error e
  | Fault.scan i e => Except.ok ⟨scanFaultAt e i result, none⟩
  | Fault.iter k e => Except.ok ⟨(result.take k).map Except.ok, some e⟩

/-- The call `db.QueryRow(..).Scan(&x)` at the call site `q` for a statement
with the single result row `v`: the error of the query, else the error of
`rows.Err()` (or `sql.ErrNoRows`) when there is no first row, else the scan of
the first row. -/
def Store.queryRow {α : Type} (db : Store) (q : QueryId) (v : α) : Except Error α :=
  match db.query q [v] with
  | Except.error e => Except.error e
  | Except.ok rows =>
    match rows.items with
    | [] => Except.error (rows.err.getD (Error.store "sql: no rows in result set"))
    | r :: _ => r

/-- The loop `for rows.Next() { if err := rows.Scan(..); err != nil { return } .. }`:
the rows scanned before the first failing scan, and that failure if any. -/
def scanAll {α : Type} : List (Except Error α) → List α × Option Error
  | [] => ([], none)
  | Except.error e :: _ => ([], some e)
  | Except.ok x :: rest => ((x :: (scanAll rest).1), (scanAll rest).2)

/-! ## The response types (`models.go`) -/

/-- The Go struct `NodeDTO`. -/
structure NodeDTO where
  ID : String
  Kind : String
  Name : String
  File : String
  Line : Int
  Package : String
  deriving DecidableEq, Repr

/-- The Go struct `EdgeDTO`. -/
structure EdgeDTO where
  Source : String
  Target : String
  Kind : String
  Weight : Int
  deriving DecidableEq, Repr

/-- The Go struct `GraphResponse`. -/
structure GraphResponse where
  Nodes : List NodeDTO
  Edges : List EdgeDTO
  deriving DecidableEq, Repr

/-- The Go struct `PackageInfo`. -/
structure PackageInfo where
  Package : String
  Files : Int
  Functions : Int
  Types : Int
  LOC : Int
  Complexity : Int
  Module : String
  Description : String
  deriving DecidableEq, Repr

/-- The Go struct `ModuleInfo`. -/
structure ModuleInfo where
  Name : String
  Packages : Int
  Functions : Int
  LOC : Int
  Complexity : Int
  deriving DecidableEq, Repr

/-- The Go struct `DBStats`. -/
structure DBStats where
  Nodes : Int
  Edges : Int
  Packages : Int
  Functions : Int
  Files : Int
  Modules : List String
  deriving DecidableEq, Repr

/-- The Go struct `FunctionInfo`. -/
structure FunctionInfo where
  Name : String
  File : String
  Line : Int
  deriving DecidableEq, Repr

/-! ## The SQL statements -/

/-- The order of SQLite's `BINARY` collation on text: code point by code
point, a proper initial segment first. -/
def charsLe : List Char → List Char → Bool
  | [], _ => true
  | _ :: _, [] => false
  | a :: as, b :: bs => decide (a.toNat < b.toNat) || (a.toNat == b.toNat && charsLe as bs)

/-- The comparison `a <= b` of two text values. -/
def textLe (a b : String) : Bool :=
  charsLe a.toList b.toList

/-- The condition `total_loc > 0`. -/
def nonTrivial (r : Rollup) : Bool :=
  decide (0 < r.total_loc)

/-- The statement `SELECT COUNT(*) FROM nodes`. -/
def sqlCountNodes (db : Store) : Int :=
  db.nodes.length

/-- The statement `SELECT COUNT(*) FROM edges`. -/
def sqlCountEdges (db : Store) : Int :=
  db.edges.length

/-- The statement
`SELECT COUNT(*) FROM dashboard_package_treemap WHERE total_loc > 0`. -/
def sqlCountPackages (db : Store) : Int :=
  (db.treemap.filter nonTrivial).length

/-- The statement
`SELECT COUNT(*) FROM nodes WHERE kind = 'function' AND name != 'func literal'`. -/
def sqlCountFunctions (db : Store) : Int :=
  (db.nodes.filter (fun n => n.kind = "function" ∧ n.name ≠ "func literal")).length

/-- The statement
`SELECT COUNT(DISTINCT file) FROM nodes WHERE file IS NOT NULL AND file != ''`. -/
def sqlCountFiles (db : Store) : Int :=
  ((db.nodes.filterMap (fun n => n.file)).filter (fun f => f ≠ "")).dedup.length

/-- The statement `SELECT DISTINCT CASE .. END AS module FROM
dashboard_package_treemap WHERE total_loc > 0 ORDER BY module`. -/
def sqlModuleNames (db : Store) : List String :=
  (((db.treemap.filter nonTrivial).map (fun r => classify r.package)).dedup).insertionSort
    (fun a b => textLe a b = true)

/-- One group of `GROUP BY module`: the rows of the module `m` with their
`COUNT(*)` and the three `SUM`s. -/
def moduleGroup (rows : List Rollup) (m : String) : ModuleInfo :=
  let g := rows.filter (fun r => classify r.package = m)
  { Name := m
    Packages := g.length
    Functions := (g.map (fun r => r.function_count)).sum
    LOC := (g.map (fun r => r.total_loc)).sum
    Complexity := (g.map (fun r => r.total_complexity)).sum }

/-- The statement of `queryModules`: `SELECT CASE .. END AS module, COUNT(*),
SUM(function_count), SUM(total_loc) AS total_loc, SUM(total_complexity) FROM
dashboard_package_treemap WHERE total_loc > 0 GROUP BY module ORDER BY
total_loc DESC`; the `ORDER BY` names the summed output column. -/
def sqlModules (db : Store) : List ModuleInfo :=
  ((sqlModuleNames db).map (moduleGroup (db.treemap.filter nonTrivial))).insertionSort
    (fun a b => b.LOC ≤ a.LOC)

/-- A row of the subquery `doc`. -/
structure DocRow where
  package : Option String
  name : String
  rn : Nat
  deriving DecidableEq, Repr

/-- The numbering `ROW_NUMBER()` gives the rows of one partition, from `i`. -/
def numberRows (k : Option String) : Nat → List Node → List DocRow
  | _, [] => []
  | i, n :: ns => { package := k, name := n.name, rn := i } :: numberRows k (i + 1) ns

/-- The condition `kind = 'comment' AND name LIKE 'Package %'`. -/
def isPackageDoc (n : Node) : Bool :=
  decide (n.kind = "comment") && sqlLike n.name "Package %"

/-- The subquery `SELECT package, name, ROW_NUMBER() OVER (PARTITION BY package
ORDER BY LENGTH(name) DESC) AS rn FROM nodes WHERE kind = 'comment' AND name
LIKE 'Package %'`: one partition per distinct `package` value (NULL is one
value), each ordered by decreasing length and numbered from 1. -/
def sqlDocRows (db : Store) : List DocRow :=
  let cands := db.nodes.filter isPackageDoc
  (cands.map (fun n => n.package)).dedup.flatMap (fun k =>
    numberRows k 1
      ((cands.filter (fun n => n.package = k)).insertionSort
        (fun a b => b.name.length ≤ a.name.length)))

/-- The rollup row `t` with the description `d`, as the select list
`t.package, t.file_count, t.function_count, t.type_count, t.total_loc,
t.total_complexity, COALESCE(doc.name, '')` scanned into a `PackageInfo`. -/
def packageRow (t : Rollup) (d : String) : PackageInfo :=
  { Package := t.package
    Files := t.file_count
    Functions := t.function_count
    Types := t.type_count
    LOC := t.total_loc
    Complexity := t.total_complexity
    Module := ""
    Description := d }

/-- The rows `t LEFT JOIN doc ON doc.package = t.package AND doc.rn = 1`
produces for the rollup row `t`: one per matching row of `doc`, and one with a
NULL `doc.name` (read through `COALESCE(doc.name, '')`) when none matches. -/
def docJoin (docs : List DocRow) (t : Rollup) : List (Rollup × String) :=
  match docs.filter (fun d => d.package = some t.package ∧ d.rn = 1) with
  | [] => [(t, "")]
  | d :: ds => (d :: ds).map (fun x => (t, x.name))

/-- The statement shared by `queryPackages` and `queryPackagesByModule`:
`SELECT .. FROM dashboard_package_treemap t LEFT JOIN (..) doc ON .. WHERE
t.total_loc > 0 [AND cond] ORDER BY t.total_loc DESC`, where `cond` is the
additional condition on `t.package`. SQL leaves the order of rows with equal
`total_loc` open; here, as in every `ORDER BY` of this file, such rows keep the
order of the table. -/
def sqlPackagesWhere (db : Store) (cond : String → Bool) : List PackageInfo :=
  ((((db.treemap.flatMap (docJoin (sqlDocRows db))).filter
      (fun j => nonTrivial j.1 && cond j.1.package)).insertionSort
      (fun a b => b.1.total_loc ≤ a.1.total_loc)).map
      (fun j => packageRow j.1 j.2))

/-- The condition of the `other` statement: `t.package NOT LIKE
'%/prometheus/prometheus/%' AND t.package NOT LIKE '%client_golang%' AND
t.package NOT LIKE '%prometheus-adapter%' AND t.package NOT LIKE
'%alertmanager%'`. -/
def notNamed (package : String) : Bool :=
  !sqlLike package "%/prometheus/prometheus/%" && !sqlLike package "%client_golang%" &&
    !sqlLike package "%prometheus-adapter%" && !sqlLike package "%alertmanager%"

/-- The statement `SELECT source, target, weight FROM dashboard_package_graph
ORDER BY weight DESC`, each row as `rows.Scan(&e.Source, &e.Target, &e.Weight)`
fills an `EdgeDTO`. -/
def sqlGraphEdges (db : Store) : List EdgeDTO :=
  (db.graph.insertionSort (fun a b => b.weight ≤ a.weight)).map
    (fun e => { Source := e.source, Target := e.target, Kind := "", Weight := e.weight })

/-- The statement `SELECT package, total_loc, total_complexity FROM
dashboard_package_treemap`. -/
def sqlTreemap (db : Store) : List (String × Int × Int) :=
  db.treemap.map (fun r => (r.package, r.total_loc, r.total_complexity))

/-- The statement `SELECT name, COALESCE(file,''), COALESCE(line,0) FROM nodes
WHERE package = ? AND kind = 'function' ORDER BY name`. -/
def sqlPackageFunctions (db : Store) (pkg : String) : List FunctionInfo :=
  ((db.nodes.filter (fun n => n.package = some pkg ∧ n.kind = "function")).insertionSort
    (fun a b => textLe a.name b.name = true)).map
    (fun n => { Name := n.name, File := n.file.getD "", Line := n.line.getD 0 })

/-! ## The operations of `queries.go` -/

/-- The Go map `nodeSet` gains the key `k`. The keys are kept without
repetition, in one of the orders `for pkg := range nodeSet` may visit them. -/
def setAdd (s : List String) (k : String) : List String :=
  if k ∈ s then s else s ++ [k]

/-- The Go function `queryStats`. -/
def queryStats (db : Store) : DBStats × Option Error :=
  let s0 : DBStats := ⟨0, 0, 0, 0, 0, []⟩
  match db.queryRow QueryId.statsNodes (sqlCountNodes db) with
  | Except.error e => (s0, some (Error.wrap "queryStats nodes" e))
  | Except.ok n =>
  let s1 := { s0 with Nodes := n }
  match db.queryRow QueryId.statsEdges (sqlCountEdges db) with
  | Except.error e => (s1, some (Error.wrap "queryStats edges" e))
  | Except.ok n =>
  let s2 := { s1 with Edges := n }
  match db.queryRow QueryId.statsPackages (sqlCountPackages db) with
  | Except.error e => (s2, some (Error.wrap "queryStats packages" e))
  | Except.ok n =>
  let s3 := { s2 with Packages := n }
  match db.queryRow QueryId.statsFunctions (sqlCountFunctions db) with
  | Except.error e => (s3, some (Error.wrap "queryStats functions" e))
  | Except.ok n =>
  let s4 := { s3 with Functions := n }
  match db.queryRow QueryId.statsFiles (sqlCountFiles db) with
  | Except.error e => (s4, some (Error.wrap "queryStats files" e))
  | Except.ok n =>
  let s5 := { s4 with Files := n }
  match db.query QueryId.statsModules (sqlModuleNames db) with
  | Except.error e => (s5, some (Error.wrap "queryStats modules" e))
  | Except.ok modRows =>
    match scanAll modRows.items with
    | (ms, some e) => ({ s5 with Modules := ms }, some (Error.wrap "queryStats modules scan" e))
    | (ms, none) => ({ s5 with Modules := ms }, modRows.err)

/-- The Go function `queryModules`. -/
def queryModules (db : Store) : List ModuleInfo × Option Error :=
  match db.query QueryId.modules (sqlModules db) with
  | Except.error e => ([], some (Error.wrap "queryModules" e))
  | Except.ok rows =>
    match scanAll rows.items with
    | (_, some e) => ([], some (Error.wrap "queryModules scan" e))
    | (modules, none) => (modules, rows.err)

/-- The Go function `queryPackages`. -/
def queryPackages (db : Store) : List PackageInfo × Option Error :=
  match db.query QueryId.packages (sqlPackagesWhere db (fun _ => true)) with
  | Except.error e => ([], some (Error.wrap "queryPackages" e))
  | Except.ok rows =>
    match scanAll rows.items with
    | (_, some e) => ([], some (Error.wrap "queryPackages scan" e))
    | (pkgs, none) => (pkgs, rows.err)

/-- The local Go struct `treemapInfo` of `queryPackageGraph`. -/
structure treemapInfo where
  loc : Int
  complexity : Int
  deriving DecidableEq, Repr

/-- The node `queryPackageGraph` builds for the key `pkg` of `nodeSet`; the Go
map `treemap` is the list of its assignments, the latest first. -/
def graphNode (treemap : List (String × treemapInfo)) (pkg : String) : NodeDTO :=
  let n : NodeDTO := { ID := pkg, Kind := "package", Name := pkg, File := "", Line := 0, Package := "" }
  match treemap.lookup pkg with
  | some info => { n with Line := info.loc }
  | none => n

/-- The Go function `queryPackageGraph`. -/
def queryPackageGraph (db : Store) : GraphResponse × Option Error :=
  match db.query QueryId.graphEdges (sqlGraphEdges db) with
  | Except.error e => (⟨[], []⟩, some (Error.wrap "queryPackageGraph edges" e))
  | Except.ok edgeRows =>
    match scanAll edgeRows.items with
    | (_, some e) => (⟨[], []⟩, some (Error.wrap "queryPackageGraph edge scan" e))
    | (scanned, none) =>
      let edges := scanned.map (fun e => { e with Kind := "imports" })
      let nodeSet := scanned.foldl (fun s e => setAdd (setAdd s e.Source) e.Target) []
      match edgeRows.err with
      | some e => (⟨[], []⟩, some e)
      | none =>
        match db.query QueryId.graphTreemap (sqlTreemap db) with
        | Except.error e => (⟨[], []⟩, some (Error.wrap "queryPackageGraph treemap" e))
        | Except.ok treemapRows =>
          match scanAll treemapRows.items with
          | (_, some e) => (⟨[], []⟩, some (Error.wrap "queryPackageGraph treemap scan" e))
          | (infos, none) =>
            let treemap := infos.foldl
              (fun m r => (r.1, (⟨r.2.1, r.2.2⟩ : treemapInfo)) :: m) []
            match treemapRows.err with
            | some e => (⟨[], []⟩, some e)
            | none => (⟨nodeSet.map (graphNode treemap), edges⟩, none)

/-- The `switch module` of `queryPackagesByModule`: the `LIKE` pattern of a
named module, the empty string otherwise. -/
def modulePattern (module : String) : String :=
  if module = "prometheus" then "%/prometheus/prometheus/%"
  else if module = "client_golang" then "%client_golang%"
  else if module = "adapter" then "%prometheus-adapter%"
  else if module = "alertmanager" then "%alertmanager%"
  else ""

/-- The rest of `queryPackagesByModule` once the statement is chosen: run it,
scan every row and set `p.Module = module`. -/
def runPackagesByModule (db : Store) (module : String) (result : List PackageInfo) :
    List PackageInfo × Option Error :=
  match db.query QueryId.packagesByModule result with
  | Except.error e => ([], some (Error.wrap "queryPackagesByModule" e))
  | Except.ok rows =>
    match scanAll rows.items with
    | (_, some e) => ([], some (Error.wrap "queryPackagesByModule scan" e))
    | (pkgs, none) => (pkgs.map (fun p => { p with Module := module }), rows.err)

/-- The Go function `queryPackagesByModule`. -/
def queryPackagesByModule (db : Store) (module : String) : List PackageInfo × Option Error :=
  let pattern := modulePattern module
  if pattern ≠ "" then
    runPackagesByModule db module (sqlPackagesWhere db (fun p => sqlLike p pattern))
  else if module = "other" then
    runPackagesByModule db module (sqlPackagesWhere db notNamed)
  else
    queryPackages db

/-- The Go function `queryPackageFunctions`. -/
def queryPackageFunctions (db : Store) (pkg : String) : List FunctionInfo × Option Error :=
  match db.query QueryId.packageFunctions (sqlPackageFunctions db pkg) with
  | Except.error e => ([], some (Error.wrap "queryPackageFunctions" e))
  | Except.ok rows =>
    match scanAll rows.items with
    | (_, some e) => ([], some (Error.wrap "queryPackageFunctions scan" e))
    | (funcs, none) => (funcs, rows.err)

/-! ## Properties stated over the embedding, and sample stores -/

/-- The text `p` has a substring that agrees with `lit` up to ASCII case at
every position where `lit` has no underscore, and has any character where
`lit` has an underscore. -/
def LikeContains (p lit : String) : Prop :=
  ∃ u w v, p.toList = u ++ w ++ v ∧
    List.Forall₂ (fun a c => a = '_' ∨ asciiLower c = a) lit.toList w

/-- The behaviour of a store on which every read succeeds. -/
def noFault : QueryId → Fault :=
  fun _ => Fault.none

/-- A store with one package `handler` that declares the function `Serve` and
holds one anonymous function. -/
def literalStore : Store :=
  { nodes := [⟨"function", "func literal", some "h.go", some 7, some "handler"⟩,
              ⟨"function", "Serve", some "h.go", some 3, some "handler"⟩]
    edges := []
    treemap := [⟨"handler", 1, 1, 0, 250, 4⟩]
    graph := []
    fault := noFault }

/-- A store with packages of several modules, package comments and
dependency edges, in which every read succeeds. -/
def sampleStore : Store :=
  { nodes := [⟨"function", "Serve", some "h.go", some 3, some "handler"⟩,
              ⟨"function", "func literal", some "h.go", some 7, some "handler"⟩,
              ⟨"comment", "Package handler serves.", none, none, some "handler"⟩,
              ⟨"comment", "package handler is the longer comment.", none, none, some "handler"⟩,
              ⟨"type", "Registry", some "r.go", none, some "github.com/prometheus/client_golang/prometheus"⟩]
    edges := [⟨"Serve", "Registry", 1⟩]
    treemap := [⟨"handler", 1, 3, 1, 250, 10⟩,
                ⟨"github.com/prometheus/prometheus/tsdb", 4, 20, 5, 900, 70⟩,
                ⟨"github.com/prometheus/client_golang/prometheus", 2, 8, 3, 400, 25⟩,
                ⟨"github.com/prometheus/alertmanager/api", 1, 2, 1, 120, 6⟩,
                ⟨"empty", 0, 0, 0, 0, 0⟩]
    graph := [⟨"handler", "github.com/prometheus/prometheus/tsdb", 2⟩,
              ⟨"handler", "vendor/x", 5⟩,
              ⟨"github.com/prometheus/prometheus/tsdb", "handler", 1⟩]
    fault := noFault }

/-- The store `db` with only the rollup rows that `keep` accepts. -/
def restrictTreemap (db : Store) (keep : Rollup → Bool) : Store :=
  { db with treemap := db.treemap.filter keep }

/-- The first package comment of the package `pkg` in the order of decreasing
length (the row numbered 1 in its partition of the subquery `doc`), or the
empty text when the package has no package comment. -/
def bestDoc (db : Store) (pkg : String) : String :=
  match ((db.nodes.filter isPackageDoc).filter (fun n => n.package = some pkg)).insertionSort
      (fun a b => b.name.length ≤ a.name.length) with
  | [] => ""
  | n :: _ => n.name

/-- The rollup columns of a listing entry. -/
def toRollup (p : PackageInfo) : Rollup :=
  { package := p.Package
    file_count := p.Files
    function_count := p.Functions
    type_count := p.Types
    total_loc := p.LOC
    total_complexity := p.Complexity }

/-- A store whose only package is the copy of `client_golang` vendored inside
the `prometheus` repository. -/
def vendoredStore : Store :=
  { nodes := []
    edges := []
    treemap := [⟨"github.com/prometheus/prometheus/vendor/github.com/prometheus/client_golang/api",
      3, 12, 4, 640, 31⟩]
    graph := []
    fault := noFault }

/-- The read of a statement with `n` result rows goes wrong under the fault
`f`: a scan fault counts only when its row exists. -/
def Fault.fails (f : Fault) (n : Nat) : Bool :=
  match f with
  | Fault.none => false
  | Fault.query _ => true
  | Fault.scan i _ => decide (i < n)
  | Fault.iter _ _ => true

/-- The error reporting of a read loop over `n` result rows: a failure to issue
the query is wrapped under the message `issue`, a failing scan under the
message `scan`, and an error reported by `rows.Err()` after the loop is handed
back as it is. -/
def loopError (f : Fault) (n : Nat) (issue scan : String) : Option Error :=
  match f with
  | Fault.none => none
  | Fault.query e => some (Error.wrap issue e)
  | Fault.scan i e => if i < n then some (Error.wrap scan e) else none
  | Fault.iter _ e => some e

/-- The error reporting of a scalar read `db.QueryRow(..).Scan(..)`: whatever
makes the read of its single row fail is wrapped under the message `label`. -/
def rowError (f : Fault) (label : String) : Option Error :=
  match f with
  | Fault.none => none
  | Fault.query e => some (Error.wrap label e)
  | Fault.scan i e => if i = 0 then some (Error.wrap label e) else none
  | Fault.iter k e => if k = 0 then some (Error.wrap label e) else none

/-- The sample store on which the row iteration of `queryModules` stops after
one row with an error. -/
def iterFaultStore : Store :=
  { sampleStore with
    fault := fun q =>
      if q = QueryId.modules then Fault.iter 1 (Error.store "database disk image is malformed")
      else Fault.none }

/-- The text `s` begins with `Package ` up to ASCII case: it starts with a
word of eight characters whose lower-casing is `package `. -/
def StartsWithPackage (s : String) : Prop :=
  ∃ w rest, s.toList = w ++ rest ∧ w.map asciiLower = "package ".toList

/-- The text `s` begins with the literal text `Package `. -/
def beginsWithPackage (s : String) : Bool :=
  "Package ".toList.isPrefixOf s.toList

/-- A store whose package `util` has one comment, which begins with a
lower-case `package `. -/
def lowerDocStore : Store :=
  { nodes := [⟨"comment", "package util holds helpers.", some "u.go", some 1, some "util"⟩]
    edges := []
    treemap := [⟨"util", 1, 2, 0, 40, 3⟩]
    graph := []
    fault := noFault }

/-- A store whose package `handler` has two package comments of equal
length, and whose package `db` has none. -/
def tiedDocStore : Store :=
  { nodes := [⟨"comment", "Package handler A.", some "a.go", some 1, some "handler"⟩,
              ⟨"comment", "Package handler B.", some "b.go", some 1, some "handler"⟩,
              ⟨"function", "Open", some "db.go", some 9, some "db"⟩]
    edges := []
    treemap := [⟨"handler", 2, 3, 1, 250, 10⟩,
                ⟨"db", 1, 1, 0, 80, 2⟩,
                ⟨"github.com/prometheus/prometheus/tsdb", 4, 20, 5, 900, 70⟩,
                ⟨"generated", 1, 0, 0, 0, 0⟩]
    graph := []
    fault := noFault }

/-- The text `p` with its ASCII upper-case letters in lower case. -/
def lowerAscii (p : String) : String :=
  String.mk (p.toList.map asciiLower)

/-- The text `p` contains `lit` up to ASCII case: once its letters are put in
lower case it contains `lit` as a literal substring. -/
def containsNoCase (p lit : String) : Bool :=
  containsSubstr (lowerAscii p) lit

/-- The classifier of the specification with containment up to ASCII case:
ordered substring containment, first match wins. -/
def classifyNoCase (p : String) : String :=
  if containsNoCase p "/prometheus/prometheus/" then "prometheus"
  else if containsNoCase p "client_golang" then "client_golang"
  else if containsNoCase p "prometheus-adapter" then "adapter"
  else if containsNoCase p "alertmanager" then "alertmanager"
  else "other"

/-- The sample store on which the row iteration of the filtered package
listing stops after one row with an error; two of its packages belong to no
named module. -/
def filterFaultStore : Store :=
  { tiedDocStore with
    fault := fun q =>
      if q = QueryId.packagesByModule then Fault.iter 1 (Error.store "disk I/O error")
      else Fault.none }

/-- The sample store on which the scan of the second row of `queryModules`
fails. -/
def scanFaultStore : Store :=
  { sampleStore with
    fault := fun q =>
      if q = QueryId.modules then Fault.scan 1 (Error.store "database disk image is malformed")
      else Fault.none }

/-! ## Facts about `LIKE` -/

theorem likeAnyTail_iff (f : List Char → Bool) (t : List Char) :
    likeAnyTail f t = true ↔ ∃ u v, t = u ++ v ∧ f v = true := by
  induction t with
  | nil =>
    constructor
    · intro h
      exact ⟨[], [], rfl, h⟩
    · rintro ⟨u, v, huv, hf⟩
      have hv : v = [] := (List.append_eq_nil.mp huv.symm).2
      subst hv
      exact hf
  | cons c cs ih =>
    simp only [likeAnyTail, Bool.or_eq_true]
    constructor
    · rintro (h | h)
      · exact ⟨[], c :: cs, rfl, h⟩
      · obtain ⟨u, v, huv, hf⟩ := ih.mp h
        exact ⟨c :: u, v, by simp [huv], hf⟩
    · rintro ⟨u, v, huv, hf⟩
      cases u with
      | nil =>
        left
        simp only [List.nil_append] at huv
        rw [huv]
        exact hf
      | cons d u =>
        right
        simp only [List.cons_append, List.cons.injEq] at huv
        exact ih.mpr ⟨u, v, huv.2, hf⟩

theorem likeMatch_percent (t : List Char) : likeMatch ['%'] t = true := by
  have h : likeMatch ['%'] t = likeAnyTail (likeMatch []) t := by
    simp [likeMatch]
  rw [h, likeAnyTail_iff]
  exact ⟨t, [], by simp, rfl⟩

/-- A pattern that starts with the literal run `lit` (no `%` in it) matches a
text exactly when the text starts with a word that `lit` accepts character by
character and the rest of the pattern matches the rest of the text. -/
theorem likeMatch_run (lit : List Char) (hlit : ∀ a ∈ lit, a ≠ '%') (rest : List Char) :
    ∀ t : List Char, likeMatch (lit ++ rest) t = true ↔
      ∃ w v, t = w ++ v ∧
        List.Forall₂ (fun a c => a = '_' ∨ asciiLower a = asciiLower c) lit w ∧
        likeMatch rest v = true := by
  induction lit with
  | nil =>
    intro t
    constructor
    · intro h
      exact ⟨[], t, rfl, List.Forall₂.nil, h⟩
    · rintro ⟨w, v, ht, hw, hv⟩
      cases hw
      simpa [ht] using hv
  | cons a lit ih =>
    intro t
    have ha : a ≠ '%' := hlit a (List.mem_cons_self _ _)
    have hl : ∀ b ∈ lit, b ≠ '%' := fun b hb => hlit b (List.mem_cons_of_mem _ hb)
    cases t with
    | nil =>
      constructor
      · intro h
        simp [likeMatch, ha] at h
      · rintro ⟨w, v, ht, hw, _⟩
        cases hw with
        | cons _ _ => simp at ht
    | cons c cs =>
      have hstep : likeMatch (a :: lit ++ rest) (c :: cs) =
          ((a == '_' || likeChar a c) && likeMatch (lit ++ rest) cs) := by
        simp [likeMatch, ha]
      rw [hstep, Bool.and_eq_true, ih hl cs]
      constructor
      · rintro ⟨hac, w, v, ht, hw, hv⟩
        refine ⟨c :: w, v, by simp [ht], List.Forall₂.cons ?_ hw, hv⟩
        simpa [likeChar] using hac
      · rintro ⟨w, v, ht, hw, hv⟩
        cases hw with
        | cons hac hw =>
          simp only [List.cons_append, List.cons.injEq] at ht
          refine ⟨?_, _, v, ht.2, hw, hv⟩
          rw [ht.1]
          simpa [likeChar] using hac

/-- The characterisation of `text LIKE '%lit%'` for a run `lit` of lower-case
characters and underscores. -/
theorem sqlLike_contains (p lit : String)
    (hlit : ∀ a ∈ lit.toList, a ≠ '%' ∧ asciiLower a = a) :
    sqlLike p (String.mk ('%' :: lit.toList ++ ['%'])) = true ↔ LikeContains p lit := by
  unfold sqlLike LikeContains
  have h0 : likeMatch ('%' :: lit.toList ++ ['%']) p.toList =
      likeAnyTail (likeMatch (lit.toList ++ ['%'])) p.toList := by
    simp [likeMatch]
  show likeMatch ('%' :: lit.toList ++ ['%']) p.toList = true ↔ _
  rw [h0, likeAnyTail_iff]
  constructor
  · rintro ⟨u, t, hp, ht⟩
    obtain ⟨w, v, htw, hw, _⟩ := (likeMatch_run lit.toList (fun a ha => (hlit a ha).1) ['%'] t).mp ht
    refine ⟨u, w, v, by rw [hp, htw, List.append_assoc], ?_⟩
    refine List.forall₂_iff_zip.mpr ⟨(List.Forall₂.length_eq hw), ?_⟩
    intro a c hac
    have hmem : a ∈ lit.toList := (List.of_mem_zip hac).1
    rcases (List.forall₂_iff_zip.mp hw).2 hac with h | h
    · exact Or.inl h
    · exact Or.inr (by rw [← h, (hlit a hmem).2])
  · rintro ⟨u, w, v, hp, hw⟩
    refine ⟨u, w ++ v, by rw [hp, List.append_assoc], ?_⟩
    refine (likeMatch_run lit.toList (fun a ha => (hlit a ha).1) ['%'] (w ++ v)).mpr
      ⟨w, v, rfl, ?_, likeMatch_percent v⟩
    refine List.forall₂_iff_zip.mpr ⟨(List.Forall₂.length_eq hw), ?_⟩
    intro a c hac
    have hmem : a ∈ lit.toList := (List.of_mem_zip hac).1
    rcases (List.forall₂_iff_zip.mp hw).2 hac with h | h
    · exact Or.inl h
    · exact Or.inr (by rw [h, (hlit a hmem).2])

theorem sqlLike_patPrometheus (p : String) :
    sqlLike p patPrometheus = true ↔ LikeContains p "/prometheus/prometheus/" :=
  sqlLike_contains p "/prometheus/prometheus/" (by decide)

theorem sqlLike_patClientGolang (p : String) :
    sqlLike p patClientGolang = true ↔ LikeContains p "client_golang" :=
  sqlLike_contains p "client_golang" (by decide)

theorem sqlLike_patAdapter (p : String) :
    sqlLike p patAdapter = true ↔ LikeContains p "prometheus-adapter" :=
  sqlLike_contains p "prometheus-adapter" (by decide)

theorem sqlLike_patAlertmanager (p : String) :
    sqlLike p patAlertmanager = true ↔ LikeContains p "alertmanager" :=
  sqlLike_contains p "alertmanager" (by decide)

/-- A text that contains `lit` literally also contains it in the sense of
`LIKE`, when `lit` consists of lower-case characters and underscores. -/
theorem likeContains_of_containsSubstr (p lit : String)
    (hlit : ∀ a ∈ lit.toList, a = '_' ∨ asciiLower a = a)
    (h : containsSubstr p lit = true) : LikeContains p lit := by
  unfold containsSubstr at h
  obtain ⟨u, v, huv⟩ := of_decide_eq_true h
  exact ⟨u, lit.toList, v, huv.symm, List.forall₂_same.mpr hlit⟩

/-! ## Module classification -/

theorem containsNoCase_iff (p lit : String) :
    containsNoCase p lit = true ↔
      ∃ u w v, p.toList = u ++ w ++ v ∧ w.map asciiLower = lit.toList := by
  unfold containsNoCase containsSubstr lowerAscii
  rw [decide_eq_true_iff]
  show lit.toList <:+: p.toList.map asciiLower ↔ _
  constructor
  · rintro ⟨s, t, hst⟩
    obtain ⟨uw, v, huwv, huw, _⟩ := List.map_eq_append_iff.mp hst.symm
    obtain ⟨u, w, huw2, _, hw⟩ := List.map_eq_append_iff.mp huw
    exact ⟨u, w, v, by rw [huwv, huw2], hw⟩
  · rintro ⟨u, w, v, hp, hw⟩
    exact ⟨u.map asciiLower, v.map asciiLower, by rw [hp, List.map_append, List.map_append, hw]⟩

theorem forall₂_of_lower_eq :
    ∀ (lit w : List Char), w.map asciiLower = lit →
      List.Forall₂ (fun a c => a = '_' ∨ asciiLower c = a) lit w := by
  intro lit w h
  subst h
  induction w with
  | nil => exact List.Forall₂.nil
  | cons c w ih => exact List.Forall₂.cons (Or.inr rfl) ih

theorem lower_eq_of_forall₂ (lit : List Char) (hlit : ∀ a ∈ lit, a ≠ '_') :
    ∀ w : List Char, List.Forall₂ (fun a c => a = '_' ∨ asciiLower c = a) lit w →
      w.map asciiLower = lit := by
  induction lit with
  | nil =>
    intro w h
    cases h
    rfl
  | cons a lit ih =>
    intro w h
    have ha : a ≠ '_' := hlit a (List.mem_cons_self _ _)
    have hl : ∀ b ∈ lit, b ≠ '_' := fun b hb => hlit b (List.mem_cons_of_mem _ hb)
    cases h with
    | cons hac hrest =>
      rcases hac with hac | hac
      · exact absurd hac ha
      · rw [List.map_cons, hac, ih hl _ hrest]

/-- A text that contains `lit` up to ASCII case contains it in the sense of
`LIKE`. -/
theorem likeContains_of_containsNoCase (p lit : String) (h : containsNoCase p lit = true) :
    LikeContains p lit := by
  obtain ⟨u, w, v, hp, hw⟩ := (containsNoCase_iff p lit).mp h
  exact ⟨u, w, v, hp, forall₂_of_lower_eq _ _ hw⟩

/-- For a text without underscore, containment in the sense of `LIKE` is
containment up to ASCII case. -/
theorem containsNoCase_of_likeContains (p lit : String) (hlit : ∀ a ∈ lit.toList, a ≠ '_')
    (h : LikeContains p lit) : containsNoCase p lit = true := by
  obtain ⟨u, w, v, hp, hw⟩ := h
  exact (containsNoCase_iff p lit).mpr ⟨u, w, v, hp, lower_eq_of_forall₂ _ hlit w hw⟩

/-- A text that contains a lower-case `lit` literally contains it up to ASCII
case. -/
theorem containsNoCase_of_containsSubstr (p lit : String)
    (hlit : lit.toList.map asciiLower = lit.toList) (h : containsSubstr p lit = true) :
    containsNoCase p lit = true := by
  unfold containsSubstr at h
  have hin : lit.toList <:+: p.toList := of_decide_eq_true h
  unfold containsNoCase containsSubstr lowerAscii
  rw [decide_eq_true_iff]
  show lit.toList <:+: p.toList.map asciiLower
  rw [← hlit]
  exact hin.map asciiLower

/-- The `CASE` cascade in terms of the four `LIKE` conditions it evaluates. -/
theorem classify_like_cascade (p : String) :
    classify p ∈ ["prometheus", "client_golang", "adapter", "alertmanager", "other"] ∧
    (classify p = "prometheus" ↔ LikeContains p "/prometheus/prometheus/") ∧
    (classify p = "client_golang" ↔
      ¬ LikeContains p "/prometheus/prometheus/" ∧ LikeContains p "client_golang") ∧
    (classify p = "adapter" ↔
      ¬ LikeContains p "/prometheus/prometheus/" ∧ ¬ LikeContains p "client_golang" ∧
        LikeContains p "prometheus-adapter") ∧
    (classify p = "alertmanager" ↔
      ¬ LikeContains p "/prometheus/prometheus/" ∧ ¬ LikeContains p "client_golang" ∧
        ¬ LikeContains p "prometheus-adapter" ∧ LikeContains p "alertmanager") ∧
    (classify p = "other" ↔
      ¬ LikeContains p "/prometheus/prometheus/" ∧ ¬ LikeContains p "client_golang" ∧
        ¬ LikeContains p "prometheus-adapter" ∧ ¬ LikeContains p "alertmanager") ∧
    (∀ lit ∈ ["/prometheus/prometheus/", "client_golang", "prometheus-adapter", "alertmanager"],
      containsSubstr p lit = true → LikeContains p lit) ∧
    classify "" = "other" := by
  rw [← sqlLike_patPrometheus, ← sqlLike_patClientGolang, ← sqlLike_patAdapter,
    ← sqlLike_patAlertmanager]
  refine ⟨?_, ?_, ?_, ?_, ?_, ?_, ?_, by decide⟩
  · unfold classify
    split_ifs <;> decide
  · unfold classify
    split_ifs <;> simp_all
  · unfold classify
    split_ifs <;> simp_all
  · unfold classify
    split_ifs <;> simp_all
  · unfold classify
    split_ifs <;> simp_all
  · unfold classify
    split_ifs <;> simp_all
  · intro lit hlit h
    simp only [List.mem_cons, List.mem_singleton, List.not_mem_nil, or_false] at hlit
    rcases hlit with rfl | rfl | rfl | rfl
    · exact likeContains_of_containsSubstr p _ (by decide) h
    · exact likeContains_of_containsSubstr p _ (by decide) h
    · exact likeContains_of_containsSubstr p _ (by decide) h
    · exact likeContains_of_containsSubstr p _ (by decide) h

/-- The underscore of the pattern `%client_golang%` is not escaped, so `LIKE`
reads it as a wildcard: the path `clientXgolang`, which does not contain the
text `client_golang` even up to ASCII case, is classified `client_golang`. -/
theorem classify_clientXgolang :
    classify "clientXgolang" = "client_golang" ∧
    containsNoCase "clientXgolang" "client_golang" = false ∧
    classifySpec "clientXgolang" = "other" := by
  decide

/-- C1, counterexample: the path `github.com/prometheus/Client_Golang/api`
does not contain the text `client_golang` literally, and the substring cascade
of the claim sends it to `other`, yet the `CASE` cascade of the code classifies
it as `client_golang`; likewise a path with the text `/PROMETHEUS/prometheus/`
in upper case is classified `prometheus`. -/
theorem classify_folds_case :
    classify "github.com/prometheus/Client_Golang/api" = "client_golang" ∧
    containsSubstr "github.com/prometheus/Client_Golang/api" "client_golang" = false ∧
    classifySpec "github.com/prometheus/Client_Golang/api" = "other" ∧
    classify "a/PROMETHEUS/prometheus/b" = "prometheus" ∧
    containsSubstr "a/PROMETHEUS/prometheus/b" "/prometheus/prometheus/" = false ∧
    classifySpec "a/PROMETHEUS/prometheus/b" = "other" := by
  decide

/-- C1, amended: on every path that the pattern `%client_golang%` matches only
where the path contains the text `client_golang` up to ASCII case, `classify`
returns one of the five module names, chosen by first match in the order
prometheus, client_golang, adapter, alertmanager, other, where a path matches a
rule when it contains the rule's text up to ASCII case; a path that contains
the text literally matches, and the empty path is `other`. -/
theorem classify_nocase_cascade (p : String)
    (hu : sqlLike p patClientGolang = true → containsNoCase p "client_golang" = true) :
    classify p = classifyNoCase p ∧
    classify p ∈ ["prometheus", "client_golang", "adapter", "alertmanager", "other"] ∧
    (∀ lit ∈ ["/prometheus/prometheus/", "client_golang", "prometheus-adapter", "alertmanager"],
      containsSubstr p lit = true → containsNoCase p lit = true) ∧
    classify "" = "other" := by
  have h1 : sqlLike p patPrometheus = containsNoCase p "/prometheus/prometheus/" := by
    rw [Bool.eq_iff_iff, sqlLike_patPrometheus]
    exact ⟨containsNoCase_of_likeContains p _ (by decide), likeContains_of_containsNoCase p _⟩
  have h2 : sqlLike p patClientGolang = containsNoCase p "client_golang" := by
    rw [Bool.eq_iff_iff]
    exact ⟨hu, fun h => (sqlLike_patClientGolang p).mpr (likeContains_of_containsNoCase p _ h)⟩
  have h3 : sqlLike p patAdapter = containsNoCase p "prometheus-adapter" := by
    rw [Bool.eq_iff_iff, sqlLike_patAdapter]
    exact ⟨containsNoCase_of_likeContains p _ (by decide), likeContains_of_containsNoCase p _⟩
  have h4 : sqlLike p patAlertmanager = containsNoCase p "alertmanager" := by
    rw [Bool.eq_iff_iff, sqlLike_patAlertmanager]
    exact ⟨containsNoCase_of_likeContains p _ (by decide), likeContains_of_containsNoCase p _⟩
  refine ⟨?_, ?_, ?_, by decide⟩
  · unfold classify classifyNoCase
    rw [h1, h2, h3, h4]
  · unfold classify
    split_ifs <;> decide
  · intro lit hlit h
    simp only [List.mem_cons, List.mem_singleton, List.not_mem_nil, or_false] at hlit
    rcases hlit with rfl | rfl | rfl | rfl
    · exact containsNoCase_of_containsSubstr p _ (by decide) h
    · exact containsNoCase_of_containsSubstr p _ (by decide) h
    · exact containsNoCase_of_containsSubstr p _ (by decide) h
    · exact containsNoCase_of_containsSubstr p _ (by decide) h

/-- C1, amended, at the path `github.com/prometheus/Client_Golang/api`, which
the cascade classifies as `client_golang`. -/
theorem classify_nocase_cascade_witness :
    (sqlLike "github.com/prometheus/Client_Golang/api" patClientGolang = true →
      containsNoCase "github.com/prometheus/Client_Golang/api" "client_golang" = true) ∧
    (classify "github.com/prometheus/Client_Golang/api" =
      classifyNoCase "github.com/prometheus/Client_Golang/api" ∧
    classify "github.com/prometheus/Client_Golang/api" ∈
      ["prometheus", "client_golang", "adapter", "alertmanager", "other"] ∧
    (∀ lit ∈ ["/prometheus/prometheus/", "client_golang", "prometheus-adapter", "alertmanager"],
      containsSubstr "github.com/prometheus/Client_Golang/api" lit = true →
        containsNoCase "github.com/prometheus/Client_Golang/api" lit = true) ∧
    classify "" = "other") ∧
    classifyNoCase "github.com/prometheus/Client_Golang/api" = "client_golang" :=
  ⟨fun _ => by decide,
    classify_nocase_cascade "github.com/prometheus/Client_Golang/api" (fun _ => by decide),
    by decide⟩

/-! ## The function listing -/

/-- C2, the code at the failing input: on a store whose package `handler`
holds the anonymous function `func literal` and the function `Serve`,
`queryPackageFunctions` lists both, while the function count of `queryStats`
on the same store leaves the anonymous one out. -/
theorem queryPackageFunctions_lists_func_literal :
    (queryPackageFunctions literalStore "handler").2 = none ∧
    ((queryPackageFunctions literalStore "handler").1.map (fun f => f.Name)) =
      ["Serve", "func literal"] ∧
    (queryStats literalStore).1.Functions = 1 := by
  decide

/-! ## Reads that succeed -/

theorem scanAll_map_ok {α : Type} (l : List α) :
    scanAll (l.map Except.ok) = (l, none) := by
  induction l with
  | nil => rfl
  | cons x xs ih => simp [scanAll, ih]

theorem query_of_noFault {α : Type} (db : Store) (q : QueryId) (res : List α)
    (h : db.fault q = Fault.none) :
    db.query q res = Except.ok ⟨res.map Except.ok, none⟩ := by
  simp [Store.query, h]

theorem queryRow_of_noFault {α : Type} (db : Store) (q : QueryId) (v : α)
    (h : db.fault q = Fault.none) : db.queryRow q v = Except.ok v := by
  simp [Store.queryRow, query_of_noFault db q [v] h]

theorem queryPackages_of_noFault (db : Store) (h : db.fault QueryId.packages = Fault.none) :
    queryPackages db = (sqlPackagesWhere db (fun _ => true), none) := by
  simp [queryPackages, query_of_noFault db _ _ h, scanAll_map_ok]

theorem runPackagesByModule_of_noFault (db : Store) (module : String) (res : List PackageInfo)
    (h : db.fault QueryId.packagesByModule = Fault.none) :
    runPackagesByModule db module res =
      (res.map (fun p => { p with Module := module }), none) := by
  simp [runPackagesByModule, query_of_noFault db _ _ h, scanAll_map_ok]

/-! ## `ORDER BY` and `WHERE` -/

/-- Inserting into a sorted list commutes with filtering. -/
theorem filter_orderedInsert {α : Type} (r : α → α → Prop) [DecidableRel r]
    (htrans : ∀ a b c, r a b → r b c → r a c) (p : α → Bool) (a : α) :
    ∀ l : List α, l.Sorted r →
      (l.orderedInsert r a).filter p =
        if p a = true then (l.filter p).orderedInsert r a else l.filter p := by
  intro l
  induction l with
  | nil =>
    intro _
    by_cases hpa : p a = true <;> simp [hpa]
  | cons b l ih =>
    intro hs
    have hs2 : l.Sorted r := (List.sorted_cons.mp hs).2
    have hb : ∀ c ∈ l, r b c := (List.sorted_cons.mp hs).1
    by_cases hab : r a b
    · have hins : (b :: l).orderedInsert r a = a :: b :: l := by
        simp [List.orderedInsert, hab]
      rw [hins]
      by_cases hpa : p a = true
      · have hall : ∀ c ∈ (b :: l).filter p, r a c := by
          intro c hc
          have hc2 : c ∈ b :: l := (List.mem_filter.mp hc).1
          rcases List.mem_cons.mp hc2 with rfl | hcl
          · exact hab
          · exact htrans _ _ _ hab (hb c hcl)
        have hfront : ((b :: l).filter p).orderedInsert r a = a :: (b :: l).filter p := by
          cases hf : (b :: l).filter p with
          | nil => rfl
          | cons c cs =>
            have hac : r a c := hall c (by rw [hf]; exact List.mem_cons_self _ _)
            simp [List.orderedInsert, hac]
        rw [if_pos hpa, hfront, List.filter_cons_of_pos hpa]
      · rw [if_neg hpa, List.filter_cons_of_neg hpa]
    · have hins : (b :: l).orderedInsert r a = b :: l.orderedInsert r a := by
        simp [List.orderedInsert, hab]
      rw [hins]
      by_cases hpb : p b = true
      · rw [List.filter_cons_of_pos hpb, ih hs2, List.filter_cons_of_pos hpb]
        by_cases hpa : p a = true
        · simp [hpa, List.orderedInsert, hab]
        · simp [hpa]
      · rw [List.filter_cons_of_neg hpb, ih hs2, List.filter_cons_of_neg hpb]

/-- The clause `ORDER BY` (a stable sort) commutes with the clause `WHERE`. -/
theorem insertionSort_filter {α : Type} (r : α → α → Prop) [DecidableRel r]
    (htrans : ∀ a b c, r a b → r b c → r a c) (htotal : ∀ a b, r a b ∨ r b a)
    (p : α → Bool) (l : List α) :
    (l.filter p).insertionSort r = (l.insertionSort r).filter p := by
  haveI : IsTrans α r := ⟨htrans⟩
  haveI : IsTotal α r := ⟨htotal⟩
  induction l with
  | nil => rfl
  | cons a l ih =>
    show _ = ((l.insertionSort r).orderedInsert r a).filter p
    rw [filter_orderedInsert r htrans p a _ (List.sorted_insertionSort r l)]
    by_cases hpa : p a = true
    · rw [if_pos hpa, List.filter_cons_of_pos hpa, ← ih]
      rfl
    · rw [if_neg hpa, List.filter_cons_of_neg hpa, ih]

/-- A statement with the extra condition `cond` returns the rows of the
unrestricted statement that satisfy `cond`, in the same order. -/
theorem sqlPackagesWhere_eq_filter (db : Store) (cond : String → Bool) :
    sqlPackagesWhere db cond =
      (sqlPackagesWhere db (fun _ => true)).filter (fun p => cond p.Package) := by
  unfold sqlPackagesWhere
  have hsplit : ((db.treemap.flatMap (docJoin (sqlDocRows db))).filter
        (fun j => nonTrivial j.1 && cond j.1.package)) =
      (((db.treemap.flatMap (docJoin (sqlDocRows db))).filter
        (fun j => nonTrivial j.1 && (fun _ => true) j.1.package)).filter
        (fun j => cond j.1.package)) := by
    rw [List.filter_filter]
    apply List.filter_congr
    intro j _
    simp [Bool.and_comm]
  rw [hsplit, insertionSort_filter (fun a b : Rollup × String => b.1.total_loc ≤ a.1.total_loc)
    (fun a b c hab hbc => le_trans hbc hab) (fun a b => le_total _ _), List.filter_map]
  rfl

/-! ## The module filters of the package listing -/

theorem queryPackagesByModule_other (db : Store)
    (h : db.fault QueryId.packagesByModule = Fault.none) :
    queryPackagesByModule db "other" =
      ((sqlPackagesWhere db notNamed).map (fun p => { p with Module := "other" }), none) := by
  have hpat : modulePattern "other" = "" := by decide
  simp [queryPackagesByModule, hpat, runPackagesByModule_of_noFault db _ _ h]

/-- The four named modules with the pattern `queryPackagesByModule` binds for
each. -/
theorem modulePattern_named (m : String)
    (hm : m ∈ ["prometheus", "client_golang", "adapter", "alertmanager"]) :
    modulePattern m ≠ "" ∧
    modulePattern m ∈ [patPrometheus, patClientGolang, patAdapter, patAlertmanager] := by
  simp only [List.mem_cons, List.mem_singleton, List.not_mem_nil, or_false] at hm
  rcases hm with rfl | rfl | rfl | rfl <;> decide

theorem queryPackagesByModule_named (db : Store) (m : String)
    (hm : m ∈ ["prometheus", "client_golang", "adapter", "alertmanager"])
    (h : db.fault QueryId.packagesByModule = Fault.none) :
    queryPackagesByModule db m =
      ((sqlPackagesWhere db (fun p => sqlLike p (modulePattern m))).map
        (fun p => { p with Module := m }), none) := by
  have hpat := (modulePattern_named m hm).1
  simp [queryPackagesByModule, hpat, runPackagesByModule_of_noFault db _ _ h]

/-- The condition of the `other` statement is the negation of the four
patterns the named modules bind. -/
theorem notNamed_iff (p : String) :
    notNamed p = true ↔
      ∀ m ∈ ["prometheus", "client_golang", "adapter", "alertmanager"],
        sqlLike p (modulePattern m) = false := by
  have h1 : modulePattern "prometheus" = "%/prometheus/prometheus/%" := by decide
  have h2 : modulePattern "client_golang" = "%client_golang%" := by decide
  have h3 : modulePattern "adapter" = "%prometheus-adapter%" := by decide
  have h4 : modulePattern "alertmanager" = "%alertmanager%" := by decide
  simp [notNamed, h1, h2, h3, h4, and_assoc]

/-- C3, counterexample: on a store whose filtered listing stops after one row
with an error, the package `db` is in the full listing and in none of the four
named listings, yet the listing for `other` holds only `handler`. -/
theorem queryPackagesByModule_other_partial :
    (queryPackagesByModule filterFaultStore "other").1.map (fun q => q.Package) = ["handler"] ∧
    (queryPackagesByModule filterFaultStore "other").2 = some (Error.store "disk I/O error") ∧
    (queryPackages filterFaultStore).1.map (fun q => q.Package) =
      ["github.com/prometheus/prometheus/tsdb", "handler", "db"] ∧
    (∀ m ∈ ["prometheus", "client_golang", "adapter", "alertmanager"],
      "db" ∉ (queryPackagesByModule filterFaultStore m).1.map (fun q => q.Package)) := by
  decide

/-- C3, amended: when the reads succeed, the listing for `other` is the full
listing restricted to the packages that occur in none of the four
named-module listings, in the same order and with the same fields, each entry tagged
`other`; in particular its packages are exactly the packages of the full
listing that appear in no named listing. -/
theorem queryPackagesByModule_other_complement (db : Store)
    (hp : db.fault QueryId.packages = Fault.none)
    (hm : db.fault QueryId.packagesByModule = Fault.none) :
    (queryPackagesByModule db "other").2 = none ∧
    (queryPackagesByModule db "other").1 =
      ((queryPackages db).1.filter (fun p => decide
          (∀ m ∈ ["prometheus", "client_golang", "adapter", "alertmanager"],
            p.Package ∉ (queryPackagesByModule db m).1.map (fun q => q.Package)))).map
        (fun p => { p with Module := "other" }) ∧
    (∀ pkg : String,
      pkg ∈ (queryPackagesByModule db "other").1.map (fun q => q.Package) ↔
        pkg ∈ (queryPackages db).1.map (fun q => q.Package) ∧
        ∀ m ∈ ["prometheus", "client_golang", "adapter", "alertmanager"],
          pkg ∉ (queryPackagesByModule db m).1.map (fun q => q.Package)) := by
  have hnamed : ∀ m ∈ ["prometheus", "client_golang", "adapter", "alertmanager"],
      ∀ p ∈ sqlPackagesWhere db (fun _ => true),
        (p.Package ∈ (queryPackagesByModule db m).1.map (fun q => q.Package) ↔
          sqlLike p.Package (modulePattern m) = true) := by
    intro m hmem p hpin
    rw [queryPackagesByModule_named db m hmem hm]
    simp only [List.map_map, List.mem_map, Function.comp]
    rw [sqlPackagesWhere_eq_filter]
    constructor
    · rintro ⟨q, hq, hqp⟩
      have := (List.mem_filter.mp hq).2
      rw [← hqp]
      exact this
    · intro hlike
      exact ⟨p, List.mem_filter.mpr ⟨hpin, hlike⟩, rfl⟩
  have hlist : (queryPackagesByModule db "other").1 =
      ((queryPackages db).1.filter (fun p => decide
          (∀ m ∈ ["prometheus", "client_golang", "adapter", "alertmanager"],
            p.Package ∉ (queryPackagesByModule db m).1.map (fun q => q.Package)))).map
        (fun p => { p with Module := "other" }) := by
    rw [queryPackagesByModule_other db hm, queryPackages_of_noFault db hp]
    show (sqlPackagesWhere db notNamed).map _ = _
    rw [sqlPackagesWhere_eq_filter db notNamed]
    congr 1
    apply List.filter_congr
    intro p hpin
    rw [Bool.eq_iff_iff, notNamed_iff, decide_eq_true_iff]
    constructor
    · intro hall m hmem hin
      have := (hnamed m hmem p hpin).mp hin
      rw [hall m hmem] at this
      exact Bool.false_ne_true this
    · intro hall m hmem
      by_contra hne
      exact hall m hmem ((hnamed m hmem p hpin).mpr (by simpa using hne))
  refine ⟨by rw [queryPackagesByModule_other db hm], hlist, ?_⟩
  intro pkg
  rw [hlist]
  simp only [List.map_map, List.mem_map, List.mem_filter, Function.comp, decide_eq_true_iff]
  constructor
  · rintro ⟨q, ⟨hq, hnone⟩, rfl⟩
    exact ⟨⟨q, hq, rfl⟩, hnone⟩
  · rintro ⟨⟨q, hq, rfl⟩, hnone⟩
    exact ⟨q, ⟨hq, hnone⟩, rfl⟩

/-- C3, amended, at the sample store. -/
theorem queryPackagesByModule_other_complement_witness :
    sampleStore.fault QueryId.packages = Fault.none ∧
    sampleStore.fault QueryId.packagesByModule = Fault.none ∧
    ((queryPackagesByModule sampleStore "other").2 = none ∧
    (queryPackagesByModule sampleStore "other").1 =
      ((queryPackages sampleStore).1.filter (fun p => decide
          (∀ m ∈ ["prometheus", "client_golang", "adapter", "alertmanager"],
            p.Package ∉ (queryPackagesByModule sampleStore m).1.map (fun q => q.Package)))).map
        (fun p => { p with Module := "other" }) ∧
    (∀ pkg : String,
      pkg ∈ (queryPackagesByModule sampleStore "other").1.map (fun q => q.Package) ↔
        pkg ∈ (queryPackages sampleStore).1.map (fun q => q.Package) ∧
        ∀ m ∈ ["prometheus", "client_golang", "adapter", "alertmanager"],
          pkg ∉ (queryPackagesByModule sampleStore m).1.map (fun q => q.Package))) :=
  ⟨rfl, rfl, queryPackagesByModule_other_complement sampleStore rfl rfl⟩

/-! ## The dependency graph -/

theorem setAdd_nodup (s : List String) (k : String) (h : s.Nodup) : (setAdd s k).Nodup := by
  unfold setAdd
  split_ifs with hk
  · exact h
  · exact List.Nodup.append h (List.nodup_singleton k) (by simpa using hk)

theorem mem_setAdd (s : List String) (k x : String) : x ∈ setAdd s k ↔ x ∈ s ∨ x = k := by
  unfold setAdd
  split_ifs with hk
  · constructor
    · exact Or.inl
    · rintro (h | rfl)
      · exact h
      · exact hk
  · simp

/-- The keys of `nodeSet` after the edge loop: no key twice, and exactly the
sources and targets of the scanned edges (besides the keys held before). -/
theorem nodeSet_spec (es : List EdgeDTO) :
    ∀ s : List String, s.Nodup →
      (es.foldl (fun s e => setAdd (setAdd s e.Source) e.Target) s).Nodup ∧
      ∀ x, x ∈ es.foldl (fun s e => setAdd (setAdd s e.Source) e.Target) s ↔
        x ∈ s ∨ ∃ e ∈ es, e.Source = x ∨ e.Target = x := by
  induction es with
  | nil =>
    intro s hs
    exact ⟨hs, fun x => by simp⟩
  | cons e es ih =>
    intro s hs
    have hs2 : (setAdd (setAdd s e.Source) e.Target).Nodup :=
      setAdd_nodup _ _ (setAdd_nodup _ _ hs)
    obtain ⟨hnd, hmem⟩ := ih _ hs2
    refine ⟨hnd, fun x => ?_⟩
    rw [List.foldl_cons, hmem x, mem_setAdd, mem_setAdd]
    constructor
    · rintro (((h | h) | h) | ⟨e2, he2, h⟩)
      · exact Or.inl h
      · exact Or.inr ⟨e, List.mem_cons_self _ _, Or.inl h.symm⟩
      · exact Or.inr ⟨e, List.mem_cons_self _ _, Or.inr h.symm⟩
      · exact Or.inr ⟨e2, List.mem_cons_of_mem _ he2, h⟩
    · rintro (h | ⟨e2, he2, h⟩)
      · exact Or.inl (Or.inl (Or.inl h))
      · rcases List.mem_cons.mp he2 with rfl | he3
        · rcases h with h | h
          · exact Or.inl (Or.inl (Or.inr h.symm))
          · exact Or.inl (Or.inr h.symm)
        · exact Or.inr ⟨e2, he3, h⟩

/-- The Go map `treemap` after the rollup loop holds the scanned rows, the
latest first. -/
theorem treemap_foldl (infos : List (String × Int × Int)) :
    ∀ acc : List (String × treemapInfo),
      infos.foldl (fun m r => (r.1, (⟨r.2.1, r.2.2⟩ : treemapInfo)) :: m) acc =
        (infos.map (fun r => (r.1, (⟨r.2.1, r.2.2⟩ : treemapInfo)))).reverse ++ acc := by
  induction infos with
  | nil => intro acc; rfl
  | cons r rs ih =>
    intro acc
    rw [List.foldl_cons, ih]
    simp

theorem lookup_some_mem {β : Type} (k : String) (v : β) :
    ∀ l : List (String × β), l.lookup k = some v → (k, v) ∈ l := by
  intro l
  induction l with
  | nil => intro h; simp [List.lookup] at h
  | cons kv l ih =>
    intro h
    obtain ⟨k2, v2⟩ := kv
    by_cases hk : k = k2
    · subst hk
      simp [List.lookup] at h
      simp [h]
    · have hbeq : (k == k2) = false := by simpa using hk
      simp only [List.lookup, hbeq] at h
      exact List.mem_cons_of_mem _ (ih h)

theorem lookup_none_not_mem {β : Type} (k : String) :
    ∀ l : List (String × β), l.lookup k = none → ∀ v, (k, v) ∉ l := by
  intro l
  induction l with
  | nil => intro _ v; simp
  | cons kv l ih =>
    intro h v
    obtain ⟨k2, v2⟩ := kv
    by_cases hk : k = k2
    · subst hk
      simp [List.lookup] at h
    · have hbeq : (k == k2) = false := by simpa using hk
      simp only [List.lookup, hbeq] at h
      intro hmem
      rcases List.mem_cons.mp hmem with heq | hin
      · exact hk (Prod.mk.inj heq).1
      · exact ih h v hin

/-- What `queryPackageGraph` returns when its two reads succeed. -/
theorem queryPackageGraph_of_noFault (db : Store)
    (he : db.fault QueryId.graphEdges = Fault.none)
    (ht : db.fault QueryId.graphTreemap = Fault.none) :
    queryPackageGraph db =
      (⟨((sqlGraphEdges db).foldl (fun s e => setAdd (setAdd s e.Source) e.Target) []).map
          (graphNode ((sqlTreemap db).map
            (fun r => (r.1, (⟨r.2.1, r.2.2⟩ : treemapInfo)))).reverse),
        (sqlGraphEdges db).map (fun e => { e with Kind := "imports" })⟩, none) := by
  simp [queryPackageGraph, query_of_noFault db _ _ he, query_of_noFault db _ _ ht,
    scanAll_map_ok, treemap_foldl]

theorem mem_sqlGraphEdges (db : Store) (x : String) :
    (∃ e ∈ sqlGraphEdges db, e.Source = x ∨ e.Target = x) ↔
      ∃ d ∈ db.graph, d.source = x ∨ d.target = x := by
  unfold sqlGraphEdges
  constructor
  · rintro ⟨e, he, h⟩
    obtain ⟨d, hd, rfl⟩ := List.mem_map.mp he
    exact ⟨d, (List.mem_insertionSort _).mp hd, h⟩
  · rintro ⟨d, hd, h⟩
    exact ⟨_, List.mem_map.mpr ⟨d, (List.mem_insertionSort _).mpr hd, rfl⟩, h⟩

theorem graphNode_spec (db : Store) (pkg : String) :
    let n := graphNode ((sqlTreemap db).map
      (fun r => (r.1, (⟨r.2.1, r.2.2⟩ : treemapInfo)))).reverse pkg
    n.ID = pkg ∧ n.Kind = "package" ∧ n.Name = pkg ∧ n.File = "" ∧ n.Package = "" ∧
    ((∀ r ∈ db.treemap, r.package ≠ pkg) → n.Line = 0) ∧
    ((∃ r ∈ db.treemap, r.package = pkg) →
      ∃ r ∈ db.treemap, r.package = pkg ∧ n.Line = r.total_loc) := by
  intro n
  cases hl : ((sqlTreemap db).map
      (fun r => (r.1, (⟨r.2.1, r.2.2⟩ : treemapInfo)))).reverse.lookup pkg with
  | none =>
    have hn : n = { ID := pkg, Kind := "package", Name := pkg, File := "", Line := 0, Package := "" } := by
      simp only [n, graphNode, hl]
    refine ⟨by rw [hn], by rw [hn], by rw [hn], by rw [hn], by rw [hn], fun _ => by rw [hn], ?_⟩
    rintro ⟨r, hr, hrp⟩
    exfalso
    refine lookup_none_not_mem pkg _ hl ⟨r.total_loc, r.total_complexity⟩ ?_
    rw [List.mem_reverse]
    simp only [sqlTreemap, List.map_map, List.mem_map, Function.comp]
    exact ⟨r, hr, by rw [hrp]⟩
  | some info =>
    have hn : n = { ID := pkg, Kind := "package", Name := pkg, File := "", Line := info.loc, Package := "" } := by
      simp only [n, graphNode, hl]
    have hmem := lookup_some_mem pkg info _ hl
    rw [List.mem_reverse] at hmem
    simp only [sqlTreemap, List.map_map, List.mem_map, Function.comp] at hmem
    obtain ⟨r, hr, hrq⟩ := hmem
    have h1 : r.package = pkg := (Prod.mk.inj hrq).1
    have h2 : info.loc = r.total_loc := by rw [← (Prod.mk.inj hrq).2]
    refine ⟨by rw [hn], by rw [hn], by rw [hn], by rw [hn], by rw [hn], ?_, ?_⟩
    · intro hnone
      exact absurd h1 (hnone r hr)
    · intro _
      exact ⟨r, hr, h1, by rw [hn]; exact h2⟩

/-- C4: when the two reads of `queryPackageGraph` succeed it returns no error
and nodes whose identifiers are, without repetition, exactly the sources and
targets of the dependency edge rows; each node has kind `package`, its name
equal to its identifier and no file or package; a node whose identifier has no
rollup row has `Line = 0`, and a node whose identifier has a rollup row carries
the `total_loc` of a rollup row of that package (of the rollup row, when the
rows of that package agree on `total_loc`). -/
theorem queryPackageGraph_nodes (db : Store)
    (he : db.fault QueryId.graphEdges = Fault.none)
    (ht : db.fault QueryId.graphTreemap = Fault.none) :
    (queryPackageGraph db).2 = none ∧
    ((queryPackageGraph db).1.Nodes.map (fun n => n.ID)).Nodup ∧
    (∀ x : String, x ∈ (queryPackageGraph db).1.Nodes.map (fun n => n.ID) ↔
      ∃ d ∈ db.graph, d.source = x ∨ d.target = x) ∧
    (∀ n ∈ (queryPackageGraph db).1.Nodes,
      n.Kind = "package" ∧ n.Name = n.ID ∧ n.File = "" ∧ n.Package = "") ∧
    (∀ n ∈ (queryPackageGraph db).1.Nodes,
      (∀ r ∈ db.treemap, r.package ≠ n.ID) → n.Line = 0) ∧
    (∀ n ∈ (queryPackageGraph db).1.Nodes,
      (∃ r ∈ db.treemap, r.package = n.ID) →
        ∃ r ∈ db.treemap, r.package = n.ID ∧ n.Line = r.total_loc) ∧
    (∀ n ∈ (queryPackageGraph db).1.Nodes, ∀ r ∈ db.treemap, r.package = n.ID →
      (∀ r2 ∈ db.treemap, r2.package = n.ID → r2.total_loc = r.total_loc) →
        n.Line = r.total_loc) := by
  rw [queryPackageGraph_of_noFault db he ht]
  obtain ⟨hnd, hmem⟩ := nodeSet_spec (sqlGraphEdges db) [] List.nodup_nil
  have hid : ∀ s : List String, (s.map (graphNode ((sqlTreemap db).map
      (fun r => (r.1, (⟨r.2.1, r.2.2⟩ : treemapInfo)))).reverse)).map (fun n => n.ID) = s := by
    intro s
    rw [List.map_map]
    conv_rhs => rw [← List.map_id s]
    apply List.map_congr_left
    intro pkg _
    exact (graphNode_spec db pkg).1
  have hnode : ∀ n ∈ ((sqlGraphEdges db).foldl
      (fun s e => setAdd (setAdd s e.Source) e.Target) []).map
        (graphNode ((sqlTreemap db).map
          (fun r => (r.1, (⟨r.2.1, r.2.2⟩ : treemapInfo)))).reverse),
      n.Kind = "package" ∧ n.Name = n.ID ∧ n.File = "" ∧ n.Package = "" ∧
      ((∀ r ∈ db.treemap, r.package ≠ n.ID) → n.Line = 0) ∧
      ((∃ r ∈ db.treemap, r.package = n.ID) →
        ∃ r ∈ db.treemap, r.package = n.ID ∧ n.Line = r.total_loc) := by
    intro n hn
    obtain ⟨pkg, _, rfl⟩ := List.mem_map.mp hn
    obtain ⟨h1, h2, h3, h4, h5, h6, h7⟩ := graphNode_spec db pkg
    refine ⟨h2, by rw [h3, h1], h4, h5, ?_, ?_⟩
    · rw [h1]
      exact h6
    · rw [h1]
      exact h7
  refine ⟨rfl, ?_, ?_, ?_, ?_, ?_, ?_⟩
  · show (List.map (fun n : NodeDTO => n.ID) (List.map _ _)).Nodup
    rw [hid]
    exact hnd
  · intro x
    show x ∈ List.map (fun n : NodeDTO => n.ID) (List.map _ _) ↔ _
    rw [hid, hmem x, mem_sqlGraphEdges]
    simp
  · intro n hn
    obtain ⟨h1, h2, h3, h4, _, _⟩ := hnode n hn
    exact ⟨h1, h2, h3, h4⟩
  · intro n hn
    exact (hnode n hn).2.2.2.2.1
  · intro n hn
    exact (hnode n hn).2.2.2.2.2
  · intro n hn r hr hrn hall
    obtain ⟨r2, hr2, hr2n, hline⟩ := (hnode n hn).2.2.2.2.2 ⟨r, hr, hrn⟩
    rw [hline]
    exact hall r2 hr2 hr2n

/-- C4 at the sample store. -/
theorem queryPackageGraph_nodes_witness :
    sampleStore.fault QueryId.graphEdges = Fault.none ∧
    sampleStore.fault QueryId.graphTreemap = Fault.none ∧
    ((queryPackageGraph sampleStore).2 = none ∧
    ((queryPackageGraph sampleStore).1.Nodes.map (fun n => n.ID)).Nodup ∧
    (∀ x : String, x ∈ (queryPackageGraph sampleStore).1.Nodes.map (fun n => n.ID) ↔
      ∃ d ∈ sampleStore.graph, d.source = x ∨ d.target = x) ∧
    (∀ n ∈ (queryPackageGraph sampleStore).1.Nodes,
      n.Kind = "package" ∧ n.Name = n.ID ∧ n.File = "" ∧ n.Package = "") ∧
    (∀ n ∈ (queryPackageGraph sampleStore).1.Nodes,
      (∀ r ∈ sampleStore.treemap, r.package ≠ n.ID) → n.Line = 0) ∧
    (∀ n ∈ (queryPackageGraph sampleStore).1.Nodes,
      (∃ r ∈ sampleStore.treemap, r.package = n.ID) →
        ∃ r ∈ sampleStore.treemap, r.package = n.ID ∧ n.Line = r.total_loc) ∧
    (∀ n ∈ (queryPackageGraph sampleStore).1.Nodes, ∀ r ∈ sampleStore.treemap,
      r.package = n.ID →
      (∀ r2 ∈ sampleStore.treemap, r2.package = n.ID → r2.total_loc = r.total_loc) →
        n.Line = r.total_loc)) :=
  ⟨rfl, rfl, queryPackageGraph_nodes sampleStore rfl rfl⟩

/-! ## The module aggregation -/

theorem queryModules_of_noFault (db : Store) (h : db.fault QueryId.modules = Fault.none) :
    queryModules db = (sqlModules db, none) := by
  simp [queryModules, query_of_noFault db _ _ h, scanAll_map_ok]

theorem sqlModuleNames_nodup (db : Store) : (sqlModuleNames db).Nodup :=
  (List.perm_insertionSort _ _).nodup_iff.mpr (List.nodup_dedup _)

theorem mem_sqlModuleNames (db : Store) (m : String) :
    m ∈ sqlModuleNames db ↔ ∃ r ∈ db.treemap, 0 < r.total_loc ∧ classify r.package = m := by
  unfold sqlModuleNames
  rw [List.mem_insertionSort, List.mem_dedup, List.mem_map]
  constructor
  · rintro ⟨r, hr, hm⟩
    obtain ⟨hr1, hr2⟩ := List.mem_filter.mp hr
    exact ⟨r, hr1, of_decide_eq_true hr2, hm⟩
  · rintro ⟨r, hr, hloc, hm⟩
    exact ⟨r, List.mem_filter.mpr ⟨hr, decide_eq_true hloc⟩, hm⟩

theorem sqlModules_names (db : Store) :
    ((sqlModules db).map (fun row => row.Name)).Perm (sqlModuleNames db) := by
  unfold sqlModules
  refine ((List.perm_insertionSort _ _).map _).trans ?_
  rw [List.map_map]
  have : (sqlModuleNames db).map ((fun row : ModuleInfo => row.Name) ∘
      moduleGroup (db.treemap.filter nonTrivial)) = (sqlModuleNames db).map id := by
    apply List.map_congr_left
    intro m _
    rfl
  rw [this, List.map_id]

theorem filter_filter_module (l : List Rollup) (m : String) :
    (l.filter nonTrivial).filter (fun r => classify r.package = m) =
      l.filter (fun r => decide (0 < r.total_loc) && decide (classify r.package = m)) := by
  rw [List.filter_filter]
  apply List.filter_congr
  intro r _
  simp [nonTrivial, Bool.and_comm]

/-- C5, counterexample: on the sample store with a row iteration that stops
after one row with an error, `queryModules` returns the row of `prometheus`
alone, although the package `handler`, with `total_loc > 0`, classifies to
`other`. -/
theorem queryModules_partial_on_failure :
    (queryModules iterFaultStore).1.map (fun row => row.Name) = ["prometheus"] ∧
    (queryModules iterFaultStore).2 = some (Error.store "database disk image is malformed") ∧
    (iterFaultStore.treemap.filter (fun r =>
      decide (0 < r.total_loc) && decide (classify r.package = "other"))).map
        (fun r => r.package) = ["handler"] := by
  decide

/-- C5, amended: when the read succeeds, `queryModules` returns no error and
exactly one row per module name that classifies some rollup row with
`total_loc > 0`; the row of the module `m` holds the number of the rollup rows with `total_loc > 0`
whose package classifies to `m`, and the sums of their `function_count`,
`total_loc` and `total_complexity`. -/
theorem queryModules_groups (db : Store) (h : db.fault QueryId.modules = Fault.none) :
    (queryModules db).2 = none ∧
    ((queryModules db).1.map (fun row => row.Name)).Nodup ∧
    (∀ m : String, m ∈ (queryModules db).1.map (fun row => row.Name) ↔
      ∃ r ∈ db.treemap, 0 < r.total_loc ∧ classify r.package = m) ∧
    (∀ row ∈ (queryModules db).1,
      row.Packages = ((db.treemap.filter (fun r =>
          decide (0 < r.total_loc) && decide (classify r.package = row.Name))).length : Int) ∧
      row.Functions = ((db.treemap.filter (fun r =>
          decide (0 < r.total_loc) && decide (classify r.package = row.Name))).map
            (fun r => r.function_count)).sum ∧
      row.LOC = ((db.treemap.filter (fun r =>
          decide (0 < r.total_loc) && decide (classify r.package = row.Name))).map
            (fun r => r.total_loc)).sum ∧
      row.Complexity = ((db.treemap.filter (fun r =>
          decide (0 < r.total_loc) && decide (classify r.package = row.Name))).map
            (fun r => r.total_complexity)).sum) := by
  rw [queryModules_of_noFault db h]
  refine ⟨rfl, ?_, ?_, ?_⟩
  · exact (sqlModules_names db).nodup_iff.mpr (sqlModuleNames_nodup db)
  · intro m
    rw [(sqlModules_names db).mem_iff, mem_sqlModuleNames]
  · intro row hrow
    have hrow2 : row ∈ (sqlModuleNames db).map (moduleGroup (db.treemap.filter nonTrivial)) :=
      (List.mem_insertionSort _).mp hrow
    obtain ⟨m, _, rfl⟩ := List.mem_map.mp hrow2
    have hg := filter_filter_module db.treemap m
    show ((((db.treemap.filter nonTrivial).filter (fun r => classify r.package = m)).length : Nat) : Int)
        = _ ∧ (((db.treemap.filter nonTrivial).filter (fun r => classify r.package = m)).map
          (fun r => r.function_count)).sum = _ ∧
        (((db.treemap.filter nonTrivial).filter (fun r => classify r.package = m)).map
          (fun r => r.total_loc)).sum = _ ∧
        (((db.treemap.filter nonTrivial).filter (fun r => classify r.package = m)).map
          (fun r => r.total_complexity)).sum = _
    rw [hg]
    exact ⟨rfl, rfl, rfl, rfl⟩

/-- C5, amended, at the sample store. -/
theorem queryModules_groups_witness :
    sampleStore.fault QueryId.modules = Fault.none ∧
    ((queryModules sampleStore).2 = none ∧
    ((queryModules sampleStore).1.map (fun row => row.Name)).Nodup ∧
    (∀ m : String, m ∈ (queryModules sampleStore).1.map (fun row => row.Name) ↔
      ∃ r ∈ sampleStore.treemap, 0 < r.total_loc ∧ classify r.package = m) ∧
    (∀ row ∈ (queryModules sampleStore).1,
      row.Packages = ((sampleStore.treemap.filter (fun r =>
          decide (0 < r.total_loc) && decide (classify r.package = row.Name))).length : Int) ∧
      row.Functions = ((sampleStore.treemap.filter (fun r =>
          decide (0 < r.total_loc) && decide (classify r.package = row.Name))).map
            (fun r => r.function_count)).sum ∧
      row.LOC = ((sampleStore.treemap.filter (fun r =>
          decide (0 < r.total_loc) && decide (classify r.package = row.Name))).map
            (fun r => r.total_loc)).sum ∧
      row.Complexity = ((sampleStore.treemap.filter (fun r =>
          decide (0 < r.total_loc) && decide (classify r.package = row.Name))).map
            (fun r => r.total_complexity)).sum)) :=
  ⟨rfl, queryModules_groups sampleStore rfl⟩

/-! ## The permissive fallback of the module filter -/

theorem mem_scanFaultAt {α : Type} (e : Error) :
    ∀ (i : Nat) (l : List α), ∀ x ∈ (scanAll (scanFaultAt e i l)).1, x ∈ l := by
  intro i l
  induction l generalizing i with
  | nil => intro x hx; simp [scanFaultAt, scanAll] at hx
  | cons a l ih =>
    intro x hx
    cases i with
    | zero => simp [scanFaultAt, scanAll] at hx
    | succ i =>
      simp only [scanFaultAt, scanAll, List.mem_cons] at hx
      rcases hx with rfl | hx
      · exact List.mem_cons_self _ _
      · exact List.mem_cons_of_mem _ (ih i x hx)

/-- Every row a read loop scans is a row of the statement's result. -/
theorem mem_of_scanned {α : Type} (db : Store) (q : QueryId) (res : List α) (rows : Rows α)
    (h : db.query q res = Except.ok rows) : ∀ x ∈ (scanAll rows.items).1, x ∈ res := by
  unfold Store.query at h
  cases hf : db.fault q with
  | none =>
    rw [hf] at h
    cases h
    intro x hx
    simpa [scanAll_map_ok] using hx
  | query e =>
    rw [hf] at h
    cases h
  | scan i e =>
    rw [hf] at h
    cases h
    exact mem_scanFaultAt e i res
  | iter k e =>
    rw [hf] at h
    cases h
    intro x hx
    rw [scanAll_map_ok] at hx
    exact List.mem_of_mem_take hx

theorem queryPackages_module_unset (db : Store) : ∀ p ∈ (queryPackages db).1, p.Module = "" := by
  intro p hp
  unfold queryPackages at hp
  cases hq : db.query QueryId.packages (sqlPackagesWhere db (fun _ => true)) with
  | error e =>
    rw [hq] at hp
    simp at hp
  | ok rows =>
    rw [hq] at hp
    have hsub := mem_of_scanned db _ _ rows hq
    dsimp only at hp
    cases hs : scanAll rows.items with
    | mk pkgs err =>
      rw [hs] at hp hsub
      cases err with
      | some e => simp at hp
      | none =>
        have hmem : p ∈ sqlPackagesWhere db (fun _ => true) := hsub p hp
        unfold sqlPackagesWhere at hmem
        obtain ⟨j, _, rfl⟩ := List.mem_map.mp hmem
        rfl

/-- C6: for a module string that is none of the five module names (the empty
string included), `queryPackagesByModule` returns what `queryPackages` returns,
value and error alike, and no entry carries a module tag. -/
theorem queryPackagesByModule_fallback (db : Store) (s : String)
    (hs : s ∉ ["prometheus", "client_golang", "adapter", "alertmanager", "other"]) :
    queryPackagesByModule db s = queryPackages db ∧
    ∀ p ∈ (queryPackagesByModule db s).1, p.Module = "" := by
  simp only [List.mem_cons, List.mem_singleton, List.not_mem_nil, or_false, not_or] at hs
  obtain ⟨h1, h2, h3, h4, h5⟩ := hs
  have hpat : modulePattern s = "" := by
    simp [modulePattern, h1, h2, h3, h4]
  have heq : queryPackagesByModule db s = queryPackages db := by
    simp [queryPackagesByModule, hpat, h5]
  exact ⟨heq, by rw [heq]; exact queryPackages_module_unset db⟩

/-- C6 at the sample store, with the empty module string. -/
theorem queryPackagesByModule_fallback_witness :
    "" ∉ ["prometheus", "client_golang", "adapter", "alertmanager", "other"] ∧
    (queryPackagesByModule sampleStore "" = queryPackages sampleStore ∧
    ∀ p ∈ (queryPackagesByModule sampleStore "").1, p.Module = "") :=
  ⟨by decide, queryPackagesByModule_fallback sampleStore "" (by decide)⟩

/-! ## Rollup rows with `total_loc = 0` -/

theorem docJoin_fst (docs : List DocRow) (t : Rollup) : ∀ j ∈ docJoin docs t, j.1 = t := by
  intro j hj
  unfold docJoin at hj
  split at hj
  · simp only [List.mem_singleton] at hj
    rw [hj]
  · obtain ⟨x, _, rfl⟩ := List.mem_map.mp hj
    rfl

theorem filter_nonTrivial_restrict (l : List Rollup) (keep : Rollup → Bool)
    (hkeep : ∀ r, 0 < r.total_loc → keep r = true) :
    (l.filter keep).filter nonTrivial = l.filter nonTrivial := by
  rw [List.filter_filter]
  apply List.filter_congr
  intro r _
  by_cases h : 0 < r.total_loc
  · simp [nonTrivial, h, hkeep r h]
  · simp [nonTrivial, h]

theorem filter_flatMap_restrict (docs : List DocRow) (keep : Rollup → Bool)
    (hkeep : ∀ r, 0 < r.total_loc → keep r = true) (cond : String → Bool) (l : List Rollup) :
    (((l.filter keep).flatMap (docJoin docs)).filter
        (fun j => nonTrivial j.1 && cond j.1.package)) =
      ((l.flatMap (docJoin docs)).filter (fun j => nonTrivial j.1 && cond j.1.package)) := by
  induction l with
  | nil => rfl
  | cons t l ih =>
    by_cases hk : keep t = true
    · rw [List.filter_cons_of_pos hk, List.flatMap_cons, List.flatMap_cons, List.filter_append,
        List.filter_append, ih]
    · rw [List.filter_cons_of_neg hk, List.flatMap_cons, List.filter_append, ih]
      have hnt : nonTrivial t = false := by
        by_contra hne
        have hpos : 0 < t.total_loc := by simpa [nonTrivial] using hne
        exact hk (hkeep t hpos)
      have hnil : (docJoin docs t).filter (fun j => nonTrivial j.1 && cond j.1.package) = [] := by
        rw [List.filter_eq_nil_iff]
        intro j hj
        rw [docJoin_fst docs t j hj, hnt]
        simp
      rw [hnil, List.nil_append]

theorem sqlPackagesWhere_restrict (db : Store) (keep : Rollup → Bool)
    (hkeep : ∀ r, 0 < r.total_loc → keep r = true) (cond : String → Bool) :
    sqlPackagesWhere (restrictTreemap db keep) cond = sqlPackagesWhere db cond := by
  unfold sqlPackagesWhere
  have hdoc : sqlDocRows (restrictTreemap db keep) = sqlDocRows db := rfl
  rw [hdoc]
  show List.map _ (List.insertionSort _ (List.filter _
    ((db.treemap.filter keep).flatMap (docJoin (sqlDocRows db))))) = _
  rw [filter_flatMap_restrict (sqlDocRows db) keep hkeep cond db.treemap]

theorem sqlModuleNames_restrict (db : Store) (keep : Rollup → Bool)
    (hkeep : ∀ r, 0 < r.total_loc → keep r = true) :
    sqlModuleNames (restrictTreemap db keep) = sqlModuleNames db := by
  unfold sqlModuleNames
  show List.insertionSort _ (List.dedup (List.map _ ((db.treemap.filter keep).filter nonTrivial))) = _
  rw [filter_nonTrivial_restrict db.treemap keep hkeep]

theorem sqlModules_restrict (db : Store) (keep : Rollup → Bool)
    (hkeep : ∀ r, 0 < r.total_loc → keep r = true) :
    sqlModules (restrictTreemap db keep) = sqlModules db := by
  unfold sqlModules
  rw [sqlModuleNames_restrict db keep hkeep]
  show List.insertionSort _ (List.map (moduleGroup ((db.treemap.filter keep).filter nonTrivial)) _) = _
  rw [filter_nonTrivial_restrict db.treemap keep hkeep]

theorem sqlCountPackages_restrict (db : Store) (keep : Rollup → Bool)
    (hkeep : ∀ r, 0 < r.total_loc → keep r = true) :
    sqlCountPackages (restrictTreemap db keep) = sqlCountPackages db := by
  unfold sqlCountPackages
  show (((db.treemap.filter keep).filter nonTrivial).length : Int) = _
  rw [filter_nonTrivial_restrict db.treemap keep hkeep]

/-- C7: discarding rollup rows none of which has `total_loc > 0` (the rows with
`total_loc = 0`, or every row but those with `total_loc > 0`) changes neither
the result of `queryPackages`, nor that of `queryPackagesByModule` for any
filter, nor that of `queryModules`, nor that of `queryStats` (its `Packages`
count and its module names included). -/
theorem trivial_rollups_ignored (db : Store) (keep : Rollup → Bool)
    (hkeep : ∀ r, 0 < r.total_loc → keep r = true) :
    queryPackages (restrictTreemap db keep) = queryPackages db ∧
    (∀ m : String,
      queryPackagesByModule (restrictTreemap db keep) m = queryPackagesByModule db m) ∧
    queryModules (restrictTreemap db keep) = queryModules db ∧
    queryStats (restrictTreemap db keep) = queryStats db := by
  have hpk : queryPackages (restrictTreemap db keep) = queryPackages db := by
    unfold queryPackages
    rw [sqlPackagesWhere_restrict db keep hkeep]
    rfl
  refine ⟨hpk, ?_, ?_, ?_⟩
  · intro m
    unfold queryPackagesByModule
    simp only [hpk, sqlPackagesWhere_restrict db keep hkeep]
    rfl
  · unfold queryModules
    rw [sqlModules_restrict db keep hkeep]
    rfl
  · unfold queryStats
    rw [sqlModuleNames_restrict db keep hkeep, sqlCountPackages_restrict db keep hkeep]
    rfl

/-- C7 at the sample store, discarding the rows with `total_loc = 0`. -/
theorem trivial_rollups_ignored_witness :
    (∀ r : Rollup, 0 < r.total_loc → (fun x : Rollup => decide (x.total_loc ≠ 0)) r = true) ∧
    (queryPackages (restrictTreemap sampleStore (fun x => decide (x.total_loc ≠ 0))) =
      queryPackages sampleStore ∧
    (∀ m : String,
      queryPackagesByModule (restrictTreemap sampleStore (fun x => decide (x.total_loc ≠ 0))) m =
        queryPackagesByModule sampleStore m) ∧
    queryModules (restrictTreemap sampleStore (fun x => decide (x.total_loc ≠ 0))) =
      queryModules sampleStore ∧
    queryStats (restrictTreemap sampleStore (fun x => decide (x.total_loc ≠ 0))) =
      queryStats sampleStore) :=
  ⟨fun _ h => decide_eq_true (ne_of_gt h),
    trivial_rollups_ignored sampleStore (fun x => decide (x.total_loc ≠ 0))
      (fun _ h => decide_eq_true (ne_of_gt h))⟩

/-! ## The doc-comment join -/

theorem numberRows_spec (k : Option String) :
    ∀ (L : List Node) (i : Nat), ∀ d ∈ numberRows k i L, d.package = k ∧ i ≤ d.rn := by
  intro L
  induction L with
  | nil => intro i d hd; simp [numberRows] at hd
  | cons n ns ih =>
    intro i d hd
    simp only [numberRows, List.mem_cons] at hd
    rcases hd with rfl | hd
    · exact ⟨rfl, le_refl _⟩
    · obtain ⟨h1, h2⟩ := ih (i + 1) d hd
      exact ⟨h1, by omega⟩

theorem filter_numberRows_other (k : Option String) (p : String) (hk : k ≠ some p)
    (L : List Node) (i : Nat) :
    (numberRows k i L).filter (fun d => d.package = some p ∧ d.rn = 1) = [] := by
  rw [List.filter_eq_nil_iff]
  intro d hd
  have := (numberRows_spec k L i d hd).1
  simp only [decide_eq_true_eq, not_and]
  intro h
  exact absurd (this.symm.trans h) hk

theorem filter_numberRows_later (k : Option String) (p : String) (L : List Node) (i : Nat)
    (hi : 2 ≤ i) :
    (numberRows k i L).filter (fun d => d.package = some p ∧ d.rn = 1) = [] := by
  rw [List.filter_eq_nil_iff]
  intro d hd
  have := (numberRows_spec k L i d hd).2
  simp only [decide_eq_true_eq, not_and]
  intro _
  omega

theorem filter_numberRows_first (p : String) (L : List Node) :
    (numberRows (some p) 1 L).filter (fun d => d.package = some p ∧ d.rn = 1) =
      match L with
      | [] => []
      | n :: _ => [{ package := some p, name := n.name, rn := 1 }] := by
  cases L with
  | nil => rfl
  | cons n ns =>
    simp only [numberRows]
    rw [List.filter_cons_of_pos (by simp), filter_numberRows_later (some p) p ns 2 (le_refl _)]

theorem flatMap_single {α β : Type} [DecidableEq α] (g : α → List β) (k0 : α)
    (hg : ∀ k, k ≠ k0 → g k = []) :
    ∀ ks : List α, ks.Nodup → ks.flatMap g = if k0 ∈ ks then g k0 else [] := by
  intro ks
  induction ks with
  | nil => intro _; rfl
  | cons k ks ih =>
    intro hnd
    obtain ⟨hk, hnd2⟩ := List.nodup_cons.mp hnd
    rw [List.flatMap_cons, ih hnd2]
    by_cases h : k = k0
    · subst h
      simp [hk]
    · have h2 : ¬ k0 = k := fun e => h e.symm
      simp [hg k h, h2]

/-- The join attaches exactly one description to a rollup row: the name of the
first package comment of its package in the order of decreasing length, or the
empty text when the package has no package comment. -/
theorem docJoin_sqlDocRows (db : Store) (t : Rollup) :
    docJoin (sqlDocRows db) t = [(t, bestDoc db t.package)] := by
  have hfilter : (sqlDocRows db).filter (fun d => d.package = some t.package ∧ d.rn = 1) =
      match ((db.nodes.filter isPackageDoc).filter
          (fun n => n.package = some t.package)).insertionSort
            (fun a b => b.name.length ≤ a.name.length) with
      | [] => []
      | n :: _ => [{ package := some t.package, name := n.name, rn := 1 }] := by
    unfold sqlDocRows
    simp only []
    rw [List.filter_flatMap]
    rw [flatMap_single _ (some t.package) (fun k hk => filter_numberRows_other k t.package hk _ 1)
      _ (List.nodup_dedup _)]
    rw [filter_numberRows_first]
    split_ifs with hmem
    · rfl
    · have hnil : (db.nodes.filter isPackageDoc).filter (fun n => n.package = some t.package) = [] := by
        rw [List.filter_eq_nil_iff]
        intro n hn
        simp only [decide_eq_true_eq]
        intro hp
        apply hmem
        rw [List.mem_dedup, List.mem_map]
        exact ⟨n, hn, hp⟩
      rw [hnil]
      rfl
  unfold docJoin bestDoc
  rw [hfilter]
  cases ((db.nodes.filter isPackageDoc).filter
      (fun n => n.package = some t.package)).insertionSort
        (fun a b => b.name.length ≤ a.name.length) with
  | nil => rfl
  | cons n ns => rfl

/-- The statement of the package listings in closed form: the rollup rows with
`total_loc > 0` that satisfy the extra condition, by decreasing `total_loc`,
each with the description of its package. -/
theorem sqlPackagesWhere_closed (db : Store) (cond : String → Bool) :
    sqlPackagesWhere db cond =
      ((db.treemap.filter (fun r => nonTrivial r && cond r.package)).insertionSort
        (fun a b => b.total_loc ≤ a.total_loc)).map
        (fun t => packageRow t (bestDoc db t.package)) := by
  unfold sqlPackagesWhere
  have hflat : db.treemap.flatMap (docJoin (sqlDocRows db)) =
      db.treemap.map (fun t => (t, bestDoc db t.package)) := by
    induction db.treemap with
    | nil => rfl
    | cons t l ih => rw [List.flatMap_cons, ih, docJoin_sqlDocRows]; rfl
  rw [hflat, List.filter_map]
  rw [← List.map_insertionSort (fun a b : Rollup => b.total_loc ≤ a.total_loc)
    (fun a b : Rollup × String => b.1.total_loc ≤ a.1.total_loc)
    (fun t : Rollup => (t, bestDoc db t.package)) _ (fun a _ b _ => Iff.rfl), List.map_map]
  rfl

theorem toRollup_packageRow (t : Rollup) (d : String) : toRollup (packageRow t d) = t := rfl

theorem sqlPackagesWhere_rollups (db : Store) (cond : String → Bool) :
    ((sqlPackagesWhere db cond).map toRollup).Perm
      (db.treemap.filter (fun r => nonTrivial r && cond r.package)) := by
  rw [sqlPackagesWhere_closed, List.map_map]
  have hid : (toRollup ∘ fun t : Rollup => packageRow t (bestDoc db t.package)) = id := by
    funext t
    rfl
  rw [hid, List.map_id]
  exact List.perm_insertionSort _ _

/-! ## The named module filters -/

/-- A path that the cascade classifies as the named module `m` matches the
pattern `queryPackagesByModule` binds for `m`. -/
theorem sqlLike_of_classify (p m : String)
    (hm : m ∈ ["prometheus", "client_golang", "adapter", "alertmanager"])
    (hc : classify p = m) : sqlLike p (modulePattern m) = true := by
  have e1 : modulePattern "prometheus" = patPrometheus := by decide
  have e2 : modulePattern "client_golang" = patClientGolang := by decide
  have e3 : modulePattern "adapter" = patAdapter := by decide
  have e4 : modulePattern "alertmanager" = patAlertmanager := by decide
  simp only [List.mem_cons, List.mem_singleton, List.not_mem_nil, or_false] at hm
  unfold classify at hc
  rcases hm with rfl | rfl | rfl | rfl
  · rw [e1]
    split_ifs at hc with h1 h2 h3 h4
    · exact h1
    all_goals exact absurd hc (by decide)
  · rw [e2]
    split_ifs at hc with h1 h2 h3 h4
    · exact absurd hc (by decide)
    · exact h2
    all_goals exact absurd hc (by decide)
  · rw [e3]
    split_ifs at hc with h1 h2 h3 h4
    · exact absurd hc (by decide)
    · exact absurd hc (by decide)
    · exact h3
    all_goals exact absurd hc (by decide)
  · rw [e4]
    split_ifs at hc with h1 h2 h3 h4
    · exact absurd hc (by decide)
    · exact absurd hc (by decide)
    · exact absurd hc (by decide)
    · exact h4
    · exact absurd hc (by decide)

/-- The row of `queryModules` for a module holds the number of its rollup
rows, and a module that classifies a rollup row with `total_loc > 0` has a
row. -/
theorem sqlModules_packages (db : Store) (m : String) :
    (∀ row ∈ sqlModules db, row.Name = m →
      row.Packages = ((db.treemap.filter (fun r =>
        decide (0 < r.total_loc) && decide (classify r.package = m))).length : Int)) ∧
    ((∃ r ∈ db.treemap, 0 < r.total_loc ∧ classify r.package = m) →
      ∃ row ∈ sqlModules db, row.Name = m) := by
  constructor
  · intro row hrow hname
    have hrow2 : row ∈ (sqlModuleNames db).map (moduleGroup (db.treemap.filter nonTrivial)) :=
      (List.mem_insertionSort _).mp hrow
    obtain ⟨m2, _, rfl⟩ := List.mem_map.mp hrow2
    have hm2 : m2 = m := hname
    subst hm2
    show ((((db.treemap.filter nonTrivial).filter (fun r => classify r.package = m2)).length : Nat)
      : Int) = _
    rw [filter_filter_module]
  · intro hex
    have hmem : m ∈ (sqlModules db).map (fun row => row.Name) :=
      (sqlModules_names db).mem_iff.mpr ((mem_sqlModuleNames db m).mpr hex)
    obtain ⟨row, hrow, hname⟩ := List.mem_map.mp hmem
    exact ⟨row, hrow, hname⟩

/-- C8, counterexample: the package of `client_golang` vendored inside the
`prometheus` repository is listed by `queryPackagesByModule(db,
"client_golang")`, although the classifier assigns it to `prometheus`; the
listing has one entry while `queryModules` reports no row for `client_golang`
(its only row is `prometheus` with one package). -/
theorem queryPackagesByModule_named_not_classifier :
    (queryPackagesByModule vendoredStore "client_golang").1.map (fun p => (p.Package, p.Module)) =
      [("github.com/prometheus/prometheus/vendor/github.com/prometheus/client_golang/api",
        "client_golang")] ∧
    classify "github.com/prometheus/prometheus/vendor/github.com/prometheus/client_golang/api" =
      "prometheus" ∧
    (queryModules vendoredStore).1.map (fun row => (row.Name, row.Packages)) =
      [("prometheus", 1)] := by
  decide

/-- C8, amended: for a named module `m`, when the reads succeed,
`queryPackagesByModule(db, m)` returns no error and exactly the rollup rows
with `total_loc > 0` whose package matches the `LIKE` pattern of `m`, each
tagged `Module = m`. Every row the classifier assigns to `m` matches that
pattern; and when, conversely, every such row that matches the pattern is
assigned to `m` by the classifier, the length of the listing is the `Packages`
count `queryModules` reports for `m` (and a non-empty listing has such a
row). -/
theorem queryPackagesByModule_named_rows (db : Store) (m : String)
    (hm : m ∈ ["prometheus", "client_golang", "adapter", "alertmanager"])
    (hf : db.fault QueryId.packagesByModule = Fault.none)
    (hg : db.fault QueryId.modules = Fault.none) :
    (queryPackagesByModule db m).2 = none ∧
    (∀ p ∈ (queryPackagesByModule db m).1, p.Module = m) ∧
    ((queryPackagesByModule db m).1.map toRollup).Perm
      (db.treemap.filter (fun r =>
        decide (0 < r.total_loc) && sqlLike r.package (modulePattern m))) ∧
    (∀ r : Rollup, classify r.package = m → sqlLike r.package (modulePattern m) = true) ∧
    ((∀ r ∈ db.treemap, 0 < r.total_loc → sqlLike r.package (modulePattern m) = true →
        classify r.package = m) →
      (∀ row ∈ (queryModules db).1, row.Name = m →
        row.Packages = ((queryPackagesByModule db m).1.length : Int)) ∧
      ((queryPackagesByModule db m).1 ≠ [] → ∃ row ∈ (queryModules db).1, row.Name = m)) := by
  have hperm : ((queryPackagesByModule db m).1.map toRollup).Perm
      (db.treemap.filter (fun r =>
        decide (0 < r.total_loc) && sqlLike r.package (modulePattern m))) := by
    rw [queryPackagesByModule_named db m hm hf]
    show (List.map toRollup (List.map _ _)).Perm _
    rw [List.map_map]
    exact sqlPackagesWhere_rollups db (fun p => sqlLike p (modulePattern m))
  refine ⟨by rw [queryPackagesByModule_named db m hm hf], ?_, hperm, ?_, ?_⟩
  · intro p hp
    rw [queryPackagesByModule_named db m hm hf] at hp
    obtain ⟨q, _, rfl⟩ := List.mem_map.mp hp
    rfl
  · intro r hc
    exact sqlLike_of_classify r.package m hm hc
  · intro hconv
    have hlen : (queryPackagesByModule db m).1.length =
        (db.treemap.filter (fun r =>
          decide (0 < r.total_loc) && decide (classify r.package = m))).length := by
      rw [← List.length_map (queryPackagesByModule db m).1 toRollup, hperm.length_eq]
      congr 1
      apply List.filter_congr
      intro r hr
      by_cases hloc : 0 < r.total_loc
      · by_cases hc : classify r.package = m
        · simp [hloc, hc, sqlLike_of_classify r.package m hm hc]
        · have : sqlLike r.package (modulePattern m) = false := by
            by_contra hne
            exact hc (hconv r hr hloc (by simpa using hne))
          simp [hloc, hc, this]
      · simp [hloc]
    rw [queryModules_of_noFault db hg]
    constructor
    · intro row hrow hname
      rw [(sqlModules_packages db m).1 row hrow hname, hlen]
    · intro hne
      apply (sqlModules_packages db m).2
      have hpos : 0 < (db.treemap.filter (fun r =>
          decide (0 < r.total_loc) && decide (classify r.package = m))).length := by
        rw [← hlen]
        exact List.length_pos.mpr hne
      obtain ⟨r, hr⟩ := List.exists_mem_of_length_pos hpos
      obtain ⟨hr1, hr2⟩ := List.mem_filter.mp hr
      simp only [Bool.and_eq_true, decide_eq_true_eq] at hr2
      exact ⟨r, hr1, hr2.1, hr2.2⟩

/-- C8, amended, at the sample store and the module `client_golang`. -/
theorem queryPackagesByModule_named_rows_witness :
    "client_golang" ∈ ["prometheus", "client_golang", "adapter", "alertmanager"] ∧
    sampleStore.fault QueryId.packagesByModule = Fault.none ∧
    sampleStore.fault QueryId.modules = Fault.none ∧
    ((queryPackagesByModule sampleStore "client_golang").2 = none ∧
    (∀ p ∈ (queryPackagesByModule sampleStore "client_golang").1, p.Module = "client_golang") ∧
    ((queryPackagesByModule sampleStore "client_golang").1.map toRollup).Perm
      (sampleStore.treemap.filter (fun r =>
        decide (0 < r.total_loc) && sqlLike r.package (modulePattern "client_golang"))) ∧
    (∀ r : Rollup, classify r.package = "client_golang" →
      sqlLike r.package (modulePattern "client_golang") = true) ∧
    ((∀ r ∈ sampleStore.treemap, 0 < r.total_loc →
        sqlLike r.package (modulePattern "client_golang") = true →
        classify r.package = "client_golang") →
      (∀ row ∈ (queryModules sampleStore).1, row.Name = "client_golang" →
        row.Packages = ((queryPackagesByModule sampleStore "client_golang").1.length : Int)) ∧
      ((queryPackagesByModule sampleStore "client_golang").1 ≠ [] →
        ∃ row ∈ (queryModules sampleStore).1, row.Name = "client_golang"))) ∧
    (∀ r ∈ sampleStore.treemap, 0 < r.total_loc →
        sqlLike r.package (modulePattern "client_golang") = true →
        classify r.package = "client_golang") :=
  ⟨by decide, rfl, rfl,
    queryPackagesByModule_named_rows sampleStore "client_golang" (by decide) rfl rfl,
    by decide⟩

/-! ## Reads that fail -/

theorem scanAll_scanFaultAt {α : Type} (e : Error) :
    ∀ (i : Nat) (l : List α),
      scanAll (scanFaultAt e i l) = if i < l.length then (l.take i, some e) else (l, none) := by
  intro i l
  induction l generalizing i with
  | nil => simp [scanFaultAt, scanAll]
  | cons a l ih =>
    cases i with
    | zero => simp [scanFaultAt, scanAll]
    | succ i =>
      simp only [scanFaultAt, scanAll, ih i, List.length_cons, Nat.add_lt_add_iff_right,
        List.take_succ_cons]
      split_ifs <;> rfl

theorem queryModules_error (db : Store) :
    (queryModules db).2 =
      loopError (db.fault QueryId.modules) (sqlModules db).length
        "queryModules" "queryModules scan" := by
  unfold queryModules Store.query loopError
  cases hf : db.fault QueryId.modules with
  | none => simp [scanAll_map_ok]
  | query e => simp
  | scan i e =>
    simp only [scanAll_scanFaultAt]
    split_ifs <;> rfl
  | iter k e => simp only [scanAll_map_ok]

theorem queryPackages_error (db : Store) :
    (queryPackages db).2 =
      loopError (db.fault QueryId.packages) (sqlPackagesWhere db (fun _ => true)).length
        "queryPackages" "queryPackages scan" := by
  unfold queryPackages Store.query loopError
  cases hf : db.fault QueryId.packages with
  | none => simp [scanAll_map_ok]
  | query e => simp
  | scan i e =>
    simp only [scanAll_scanFaultAt]
    split_ifs <;> rfl
  | iter k e => simp only [scanAll_map_ok]

theorem runPackagesByModule_error (db : Store) (module : String) (res : List PackageInfo) :
    (runPackagesByModule db module res).2 =
      loopError (db.fault QueryId.packagesByModule) res.length
        "queryPackagesByModule" "queryPackagesByModule scan" := by
  unfold runPackagesByModule Store.query loopError
  cases hf : db.fault QueryId.packagesByModule with
  | none => simp [scanAll_map_ok]
  | query e => simp
  | scan i e =>
    simp only [scanAll_scanFaultAt]
    split_ifs <;> rfl
  | iter k e => simp only [scanAll_map_ok]

theorem queryPackageFunctions_error (db : Store) (pkg : String) :
    (queryPackageFunctions db pkg).2 =
      loopError (db.fault QueryId.packageFunctions) (sqlPackageFunctions db pkg).length
        "queryPackageFunctions" "queryPackageFunctions scan" := by
  unfold queryPackageFunctions Store.query loopError
  cases hf : db.fault QueryId.packageFunctions with
  | none => simp [scanAll_map_ok]
  | query e => simp
  | scan i e =>
    simp only [scanAll_scanFaultAt]
    split_ifs <;> rfl
  | iter k e => simp only [scanAll_map_ok]

/-- The error of `queryPackageGraph`, and the empty graph beside every error. -/
theorem queryPackageGraph_error (db : Store) :
    (queryPackageGraph db).2 =
      (loopError (db.fault QueryId.graphEdges) (sqlGraphEdges db).length
        "queryPackageGraph edges" "queryPackageGraph edge scan").or
      (loopError (db.fault QueryId.graphTreemap) (sqlTreemap db).length
        "queryPackageGraph treemap" "queryPackageGraph treemap scan") ∧
    ((queryPackageGraph db).2 ≠ none → (queryPackageGraph db).1 = ⟨[], []⟩) := by
  unfold queryPackageGraph Store.query loopError
  cases hf : db.fault QueryId.graphEdges with
  | query e => simp
  | scan i e =>
    simp only [scanAll_scanFaultAt]
    by_cases hi : i < (sqlGraphEdges db).length
    · simp [hi]
    · simp only [hi, if_false]
      cases hg : db.fault QueryId.graphTreemap with
      | query e2 => simp
      | scan j e2 =>
        simp only [scanAll_scanFaultAt]
        by_cases hj : j < (sqlTreemap db).length
        · simp [hj]
        · simp [hj]
      | iter k e2 => simp only [scanAll_map_ok]; simp
      | none => simp [scanAll_map_ok]
  | iter k e => simp only [scanAll_map_ok]; simp
  | none =>
    simp only [scanAll_map_ok]
    cases hg : db.fault QueryId.graphTreemap with
    | query e2 => simp
    | scan j e2 =>
      simp only [scanAll_scanFaultAt]
      by_cases hj : j < (sqlTreemap db).length
      · simp [hj]
      · simp [hj]
    | iter k e2 => simp only [scanAll_map_ok]; simp
    | none => simp [scanAll_map_ok]

theorem queryRow_cases {α : Type} (db : Store) (q : QueryId) (v : α) (label : String) :
    (db.queryRow q v = Except.ok v ∧ rowError (db.fault q) label = none) ∨
    (∃ e, db.queryRow q v = Except.error e ∧
      rowError (db.fault q) label = some (Error.wrap label e)) := by
  unfold Store.queryRow Store.query rowError
  cases hf : db.fault q with
  | none => left; simp
  | query e => right; exact ⟨e, by simp⟩
  | scan i e =>
    cases i with
    | zero => right; exact ⟨e, by simp [scanFaultAt]⟩
    | succ i => left; simp [scanFaultAt]
  | iter k e =>
    cases k with
    | zero => right; exact ⟨e, by simp⟩
    | succ k => left; simp

theorem queryStats_error (db : Store) :
    (queryStats db).2 =
      (((((rowError (db.fault QueryId.statsNodes) "queryStats nodes").or
        (rowError (db.fault QueryId.statsEdges) "queryStats edges")).or
        (rowError (db.fault QueryId.statsPackages) "queryStats packages")).or
        (rowError (db.fault QueryId.statsFunctions) "queryStats functions")).or
        (rowError (db.fault QueryId.statsFiles) "queryStats files")).or
        (loopError (db.fault QueryId.statsModules) (sqlModuleNames db).length
          "queryStats modules" "queryStats modules scan") := by
  unfold queryStats
  rcases queryRow_cases db QueryId.statsNodes (sqlCountNodes db) "queryStats nodes" with
    ⟨h1, r1⟩ | ⟨e1, h1, r1⟩
  swap
  · rw [h1, r1]; rfl
  rcases queryRow_cases db QueryId.statsEdges (sqlCountEdges db) "queryStats edges" with
    ⟨h2, r2⟩ | ⟨e2, h2, r2⟩
  swap
  · rw [h1, r1, h2, r2]; rfl
  rcases queryRow_cases db QueryId.statsPackages (sqlCountPackages db) "queryStats packages" with
    ⟨h3, r3⟩ | ⟨e3, h3, r3⟩
  swap
  · rw [h1, r1, h2, r2, h3, r3]; rfl
  rcases queryRow_cases db QueryId.statsFunctions (sqlCountFunctions db)
    "queryStats functions" with ⟨h4, r4⟩ | ⟨e4, h4, r4⟩
  swap
  · rw [h1, r1, h2, r2, h3, r3, h4, r4]; rfl
  rcases queryRow_cases db QueryId.statsFiles (sqlCountFiles db) "queryStats files" with
    ⟨h5, r5⟩ | ⟨e5, h5, r5⟩
  swap
  · rw [h1, r1, h2, r2, h3, r3, h4, r4, h5, r5]; rfl
  rw [h1, r1, h2, r2, h3, r3, h4, r4, h5, r5]
  simp only [Option.or]
  unfold Store.query loopError
  cases hf : db.fault QueryId.statsModules with
  | none => simp [scanAll_map_ok]
  | query e => simp
  | scan i e =>
    simp only [scanAll_scanFaultAt]
    split_ifs <;> rfl
  | iter k e => simp only [scanAll_map_ok]

theorem loopError_ne_none (f : Fault) (n : Nat) (issue scan : String) :
    loopError f n issue scan ≠ none ↔ f.fails n = true := by
  cases f with
  | none => simp [loopError, Fault.fails]
  | query e => simp [loopError, Fault.fails]
  | scan i e =>
    by_cases hi : i < n <;> simp [loopError, Fault.fails, hi]
  | iter k e => simp [loopError, Fault.fails]

/-! ## Error reporting -/

/-- C9, the code at the failing input: when the row iteration of
`queryModules` ends with the store's error `database disk image is malformed`,
`queryModules` returns that very error, which wraps nothing and whose message
names no operation; when instead the scan of a row fails with the same error,
`queryModules` wraps it under the message `queryModules scan`. -/
theorem queryModules_iteration_error_unwrapped :
    (queryModules iterFaultStore).2 = some (Error.store "database disk image is malformed") ∧
    (Error.store "database disk image is malformed").unwrap = none ∧
    containsSubstr (Error.store "database disk image is malformed").message "queryModules" =
      false ∧
    (queryModules scanFaultStore).2 =
      some (Error.wrap "queryModules scan" (Error.store "database disk image is malformed")) ∧
    (Error.wrap "queryModules scan" (Error.store "database disk image is malformed")).message =
      "queryModules scan: database disk image is malformed" := by
  decide

/-- The error each operation returns, read off the behaviour of its reads: a
failure to issue a query and a failing row scan come back wrapped under a
message that names the operation or its sub-query, an error reported at the end
of a row iteration comes back as it is, and the five scalar counts of
`queryStats` wrap every failure of their read. An operation with several reads
reports the first that fails. -/
theorem errors_wrapped_except_iteration (db : Store) :
    (queryStats db).2 =
      (((((rowError (db.fault QueryId.statsNodes) "queryStats nodes").or
        (rowError (db.fault QueryId.statsEdges) "queryStats edges")).or
        (rowError (db.fault QueryId.statsPackages) "queryStats packages")).or
        (rowError (db.fault QueryId.statsFunctions) "queryStats functions")).or
        (rowError (db.fault QueryId.statsFiles) "queryStats files")).or
        (loopError (db.fault QueryId.statsModules) (sqlModuleNames db).length
          "queryStats modules" "queryStats modules scan") ∧
    (queryModules db).2 =
      loopError (db.fault QueryId.modules) (sqlModules db).length
        "queryModules" "queryModules scan" ∧
    (queryPackages db).2 =
      loopError (db.fault QueryId.packages) (sqlPackagesWhere db (fun _ => true)).length
        "queryPackages" "queryPackages scan" ∧
    (∀ m ∈ ["prometheus", "client_golang", "adapter", "alertmanager"],
      (queryPackagesByModule db m).2 =
        loopError (db.fault QueryId.packagesByModule)
          (sqlPackagesWhere db (fun p => sqlLike p (modulePattern m))).length
          "queryPackagesByModule" "queryPackagesByModule scan") ∧
    (queryPackagesByModule db "other").2 =
      loopError (db.fault QueryId.packagesByModule) (sqlPackagesWhere db notNamed).length
        "queryPackagesByModule" "queryPackagesByModule scan" ∧
    (∀ s ∉ ["prometheus", "client_golang", "adapter", "alertmanager", "other"],
      (queryPackagesByModule db s).2 =
        loopError (db.fault QueryId.packages) (sqlPackagesWhere db (fun _ => true)).length
          "queryPackages" "queryPackages scan") ∧
    (queryPackageGraph db).2 =
      (loopError (db.fault QueryId.graphEdges) (sqlGraphEdges db).length
        "queryPackageGraph edges" "queryPackageGraph edge scan").or
      (loopError (db.fault QueryId.graphTreemap) (sqlTreemap db).length
        "queryPackageGraph treemap" "queryPackageGraph treemap scan") ∧
    (∀ pkg : String, (queryPackageFunctions db pkg).2 =
      loopError (db.fault QueryId.packageFunctions) (sqlPackageFunctions db pkg).length
        "queryPackageFunctions" "queryPackageFunctions scan") := by
  refine ⟨queryStats_error db, queryModules_error db, queryPackages_error db, ?_, ?_, ?_,
    (queryPackageGraph_error db).1, queryPackageFunctions_error db⟩
  · intro m hm
    have hpat := (modulePattern_named m hm).1
    have : queryPackagesByModule db m =
        runPackagesByModule db m (sqlPackagesWhere db (fun p => sqlLike p (modulePattern m))) := by
      simp [queryPackagesByModule, hpat]
    rw [this, runPackagesByModule_error]
  · have hpat : modulePattern "other" = "" := by decide
    have : queryPackagesByModule db "other" =
        runPackagesByModule db "other" (sqlPackagesWhere db notNamed) := by
      simp [queryPackagesByModule, hpat]
    rw [this, runPackagesByModule_error]
  · intro s hs
    simp only [List.mem_cons, List.mem_singleton, List.not_mem_nil, or_false, not_or] at hs
    obtain ⟨h1, h2, h3, h4, h5⟩ := hs
    have hpat : modulePattern s = "" := by
      simp [modulePattern, h1, h2, h3, h4]
    have : queryPackagesByModule db s = queryPackages db := by
      simp [queryPackagesByModule, hpat, h5]
    rw [this, queryPackages_error]

/-! ## No partial graph -/

/-- C10: if a read of `queryPackageGraph` fails (issuing the edge or the rollup
query, scanning one of their rows, or the end of their row iteration),
`queryPackageGraph` returns an error together with the empty `GraphResponse`;
every error comes with the empty graph, and a non-empty graph is returned only
when no read failed, without an error. -/
theorem queryPackageGraph_all_or_nothing (db : Store) :
    (((db.fault QueryId.graphEdges).fails (sqlGraphEdges db).length = true ∨
      (db.fault QueryId.graphTreemap).fails (sqlTreemap db).length = true) →
      (queryPackageGraph db).2 ≠ none ∧ (queryPackageGraph db).1 = ⟨[], []⟩) ∧
    ((queryPackageGraph db).2 ≠ none → (queryPackageGraph db).1 = ⟨[], []⟩) ∧
    ((queryPackageGraph db).1 ≠ ⟨[], []⟩ →
      (db.fault QueryId.graphEdges).fails (sqlGraphEdges db).length = false ∧
      (db.fault QueryId.graphTreemap).fails (sqlTreemap db).length = false ∧
      (queryPackageGraph db).2 = none) := by
  obtain ⟨herr, hempty⟩ := queryPackageGraph_error db
  have hfail : ((db.fault QueryId.graphEdges).fails (sqlGraphEdges db).length = true ∨
      (db.fault QueryId.graphTreemap).fails (sqlTreemap db).length = true) ↔
      (queryPackageGraph db).2 ≠ none := by
    rw [herr, ← loopError_ne_none _ _ "queryPackageGraph edges" "queryPackageGraph edge scan",
      ← loopError_ne_none _ _ "queryPackageGraph treemap" "queryPackageGraph treemap scan"]
    cases loopError (db.fault QueryId.graphEdges) (sqlGraphEdges db).length
        "queryPackageGraph edges" "queryPackageGraph edge scan" <;>
      cases loopError (db.fault QueryId.graphTreemap) (sqlTreemap db).length
        "queryPackageGraph treemap" "queryPackageGraph treemap scan" <;> simp [Option.or]
  refine ⟨fun h => ⟨hfail.mp h, hempty (hfail.mp h)⟩, hempty, ?_⟩
  intro hne
  have hnone : (queryPackageGraph db).2 = none := by
    by_contra h
    exact hne (hempty h)
  have hnot : ¬ ((db.fault QueryId.graphEdges).fails (sqlGraphEdges db).length = true ∨
      (db.fault QueryId.graphTreemap).fails (sqlTreemap db).length = true) :=
    fun h => (hfail.mp h) hnone
  rw [not_or] at hnot
  exact ⟨by simpa using hnot.1, by simpa using hnot.2, hnone⟩

/-! ## The description of a package -/

theorem forall₂_lower (lit : List Char) (hlit : ∀ a ∈ lit, a ≠ '_') :
    ∀ w : List Char,
      List.Forall₂ (fun a c => a = '_' ∨ asciiLower a = asciiLower c) lit w ↔
        w.map asciiLower = lit.map asciiLower := by
  induction lit with
  | nil =>
    intro w
    constructor
    · intro h
      cases h
      rfl
    · intro h
      have hw : w = [] := by simpa using h
      rw [hw]
      exact List.Forall₂.nil
  | cons a lit ih =>
    intro w
    have ha : a ≠ '_' := hlit a (List.mem_cons_self _ _)
    have hl : ∀ b ∈ lit, b ≠ '_' := fun b hb => hlit b (List.mem_cons_of_mem _ hb)
    cases w with
    | nil =>
      constructor
      · intro h
        cases h
      · intro h
        simp at h
    | cons c w =>
      rw [List.forall₂_cons, ih hl w]
      simp only [List.map_cons, List.cons.injEq]
      constructor
      · rintro ⟨h1, h2⟩
        rcases h1 with h1 | h1
        · exact absurd h1 ha
        · exact ⟨h1.symm, h2⟩
      · rintro ⟨h1, h2⟩
        exact ⟨Or.inr h1.symm, h2⟩

/-- The condition `name LIKE 'Package %'` holds of the names that begin with
`Package ` up to ASCII case. -/
theorem sqlLike_package (s : String) :
    sqlLike s "Package %" = true ↔ StartsWithPackage s := by
  unfold sqlLike StartsWithPackage
  have hpat : ("Package %" : String).toList = "Package ".toList ++ ['%'] := by decide
  rw [hpat, likeMatch_run "Package ".toList (by decide) ['%'] s.toList]
  have hlow : ("Package " : String).toList.map asciiLower = "package ".toList := by decide
  constructor
  · rintro ⟨w, v, hs, hw, _⟩
    refine ⟨w, v, hs, ?_⟩
    rw [(forall₂_lower "Package ".toList (by decide) w).mp hw, hlow]
  · rintro ⟨w, v, hs, hw⟩
    refine ⟨w, v, hs, ?_, likeMatch_percent v⟩
    rw [forall₂_lower "Package ".toList (by decide) w, hw, hlow]

theorem isPackageDoc_iff (n : Node) :
    isPackageDoc n = true ↔ n.kind = "comment" ∧ StartsWithPackage n.name := by
  unfold isPackageDoc
  rw [Bool.and_eq_true, decide_eq_true_iff, sqlLike_package]

/-- The description of a package is the empty text when the package has no
package comment, and otherwise the name of one of its package comments, none
of which is longer. -/
theorem bestDoc_spec (db : Store) (pkg : String) :
    ((∀ n ∈ db.nodes, isPackageDoc n = true → n.package ≠ some pkg) → bestDoc db pkg = "") ∧
    (∀ n0 ∈ db.nodes, isPackageDoc n0 = true → n0.package = some pkg →
      ∃ n ∈ db.nodes, isPackageDoc n = true ∧ n.package = some pkg ∧ bestDoc db pkg = n.name ∧
        ∀ m ∈ db.nodes, isPackageDoc m = true → m.package = some pkg →
          m.name.length ≤ n.name.length) := by
  haveI : IsTrans Node (fun a b => b.name.length ≤ a.name.length) :=
    ⟨fun a b c hab hbc => le_trans hbc hab⟩
  haveI : IsTotal Node (fun a b => b.name.length ≤ a.name.length) :=
    ⟨fun a b => le_total _ _⟩
  have hmem : ∀ n, n ∈ ((db.nodes.filter isPackageDoc).filter
        (fun n => n.package = some pkg)).insertionSort
          (fun a b => b.name.length ≤ a.name.length) ↔
      n ∈ db.nodes ∧ isPackageDoc n = true ∧ n.package = some pkg := by
    intro n
    rw [List.mem_insertionSort, List.mem_filter, List.mem_filter, decide_eq_true_iff, and_assoc]
  have hsorted := List.sorted_insertionSort (fun a b : Node => b.name.length ≤ a.name.length)
    ((db.nodes.filter isPackageDoc).filter (fun n => n.package = some pkg))
  unfold bestDoc
  cases hS : ((db.nodes.filter isPackageDoc).filter
      (fun n => n.package = some pkg)).insertionSort
        (fun a b => b.name.length ≤ a.name.length) with
  | nil =>
    rw [hS] at hmem
    refine ⟨fun _ => rfl, ?_⟩
    intro n0 h0 h1 h2
    exact absurd ((hmem n0).mpr ⟨h0, h1, h2⟩) (List.not_mem_nil _)
  | cons n ns =>
    rw [hS] at hmem hsorted
    have hn := (hmem n).mp (List.mem_cons_self _ _)
    constructor
    · intro hnone
      exact absurd hn.2.2 (hnone n hn.1 hn.2.1)
    · intro _ _ _ _
      refine ⟨n, hn.1, hn.2.1, hn.2.2, rfl, ?_⟩
      intro m hm1 hm2 hm3
      rcases List.mem_cons.mp ((hmem m).mpr ⟨hm1, hm2, hm3⟩) with rfl | hin
      · exact le_refl _
      · exact List.rel_of_sorted_cons hsorted m hin

/-- Every entry `queryPackages` returns is a row of its statement. -/
theorem mem_queryPackages (db : Store) :
    ∀ p ∈ (queryPackages db).1, p ∈ sqlPackagesWhere db (fun _ => true) := by
  intro p hp
  unfold queryPackages at hp
  cases hq : db.query QueryId.packages (sqlPackagesWhere db (fun _ => true)) with
  | error e =>
    rw [hq] at hp
    simp at hp
  | ok rows =>
    rw [hq] at hp
    have hsub := mem_of_scanned db _ _ rows hq
    dsimp only at hp
    cases hs : scanAll rows.items with
    | mk pkgs err =>
      rw [hs] at hp hsub
      cases err with
      | some e => simp at hp
      | none => exact hsub p hp

/-- C11, counterexample: the package `handler` of the sample store has the
comment `Package handler serves.`, the only one that begins with the literal
text `Package `, yet its entry carries the longer comment that begins with a
lower-case `package `; and the package `util`, which has no comment that
begins with the literal text `Package `, gets a description that is not
empty. -/
theorem queryPackages_description_not_literal :
    ((queryPackages sampleStore).1.filter (fun p => p.Package = "handler")).map
      (fun p => p.Description) = ["package handler is the longer comment."] ∧
    beginsWithPackage "package handler is the longer comment." = false ∧
    (sampleStore.nodes.filter (fun n => n.kind = "comment" ∧
      beginsWithPackage n.name = true ∧ n.package = some "handler")).map (fun n => n.name) =
      ["Package handler serves."] ∧
    lowerDocStore.nodes.filter (fun n => n.kind = "comment" ∧
      beginsWithPackage n.name = true ∧ n.package = some "util") = [] ∧
    (queryPackages lowerDocStore).1.map (fun p => (p.Package, p.Description)) =
      [("util", "package util holds helpers.")] := by
  decide

/-- C11, amended: for every store and every entry `queryPackages` returns, if
the package has a comment node whose name begins with `Package ` up to ASCII
case (the names `LIKE 'Package %'` accepts), the entry's `Description` is the
name of such a comment node of that package, none of which is longer; if it
has none, the `Description` is the empty text. The comments raise no error:
the error of `queryPackages` is fixed by the behaviour of its read and the
number of rollup rows with `total_loc > 0`, and there is none when the read
succeeds. -/
theorem queryPackages_description (db : Store) (p : PackageInfo)
    (hp : p ∈ (queryPackages db).1) :
    ((∃ n0 ∈ db.nodes, n0.kind = "comment" ∧ StartsWithPackage n0.name ∧
        n0.package = some p.Package) →
      ∃ n ∈ db.nodes, n.kind = "comment" ∧ StartsWithPackage n.name ∧
        n.package = some p.Package ∧ p.Description = n.name ∧
        ∀ m ∈ db.nodes, m.kind = "comment" → StartsWithPackage m.name →
          m.package = some p.Package → m.name.length ≤ n.name.length) ∧
    ((¬ ∃ n0 ∈ db.nodes, n0.kind = "comment" ∧ StartsWithPackage n0.name ∧
        n0.package = some p.Package) → p.Description = "") ∧
    (queryPackages db).2 =
      loopError (db.fault QueryId.packages)
        (db.treemap.filter (fun r => decide (0 < r.total_loc))).length
        "queryPackages" "queryPackages scan" ∧
    (db.fault QueryId.packages = Fault.none → (queryPackages db).2 = none) := by
  have hrow := mem_queryPackages db p hp
  rw [sqlPackagesWhere_closed] at hrow
  obtain ⟨t, _, rfl⟩ := List.mem_map.mp hrow
  obtain ⟨hnone, hsome⟩ := bestDoc_spec db t.package
  have hlen : (sqlPackagesWhere db (fun _ => true)).length =
      (db.treemap.filter (fun r => decide (0 < r.total_loc))).length := by
    rw [sqlPackagesWhere_closed, List.length_map, List.length_insertionSort]
    congr 1
    apply List.filter_congr
    intro r _
    simp [nonTrivial]
  have herr := queryPackages_error db
  rw [hlen] at herr
  refine ⟨?_, ?_, herr, ?_⟩
  · rintro ⟨n0, h0, hk, hs, hpk⟩
    obtain ⟨n, hn, hdoc, hnp, hbest, hmax⟩ :=
      hsome n0 h0 ((isPackageDoc_iff n0).mpr ⟨hk, hs⟩) hpk
    obtain ⟨hnk, hns⟩ := (isPackageDoc_iff n).mp hdoc
    refine ⟨n, hn, hnk, hns, hnp, hbest, ?_⟩
    intro m hm hmk hms hmp
    exact hmax m hm ((isPackageDoc_iff m).mpr ⟨hmk, hms⟩) hmp
  · intro hno
    apply hnone
    intro n hn hdoc hnp
    obtain ⟨hnk, hns⟩ := (isPackageDoc_iff n).mp hdoc
    exact hno ⟨n, hn, hnk, hns, hnp⟩
  · intro hf
    rw [herr, hf]
    rfl

/-- C11, amended, at the sample store and its entry for the package
`handler`. -/
theorem queryPackages_description_witness :
    (⟨"handler", 1, 3, 1, 250, 10, "", "package handler is the longer comment."⟩ : PackageInfo) ∈
      (queryPackages sampleStore).1 ∧
    (((∃ n0 ∈ sampleStore.nodes, n0.kind = "comment" ∧ StartsWithPackage n0.name ∧
        n0.package = some "handler") →
      ∃ n ∈ sampleStore.nodes, n.kind = "comment" ∧ StartsWithPackage n.name ∧
        n.package = some "handler" ∧ "package handler is the longer comment." = n.name ∧
        ∀ m ∈ sampleStore.nodes, m.kind = "comment" → StartsWithPackage m.name →
          m.package = some "handler" → m.name.length ≤ n.name.length) ∧
    ((¬ ∃ n0 ∈ sampleStore.nodes, n0.kind = "comment" ∧ StartsWithPackage n0.name ∧
        n0.package = some "handler") → "package handler is the longer comment." = "") ∧
    (queryPackages sampleStore).2 =
      loopError (sampleStore.fault QueryId.packages)
        (sampleStore.treemap.filter (fun r => decide (0 < r.total_loc))).length
        "queryPackages" "queryPackages scan" ∧
    (sampleStore.fault QueryId.packages = Fault.none → (queryPackages sampleStore).2 = none)) :=
  ⟨by decide,
    queryPackages_description sampleStore
      ⟨"handler", 1, 3, 1, 250, 10, "", "package handler is the longer comment."⟩ (by decide)⟩

/-! ## The number of non-trivial packages -/

/-- What `queryStats` returns when all its reads succeed. -/
theorem queryStats_of_noFault (db : Store) (h : ∀ q, db.fault q = Fault.none) :
    queryStats db =
      (⟨sqlCountNodes db, sqlCountEdges db, sqlCountPackages db, sqlCountFunctions db,
        sqlCountFiles db, sqlModuleNames db⟩, none) := by
  simp [queryStats, queryRow_of_noFault db _ _ (h _), query_of_noFault db _ _ (h _),
    scanAll_map_ok]

/-- Grouping a list by the value of `f` and adding the sizes of the groups
gives the length of the list. -/
theorem sum_group_lengths {α β : Type} [DecidableEq β] (f : α → β) (l : List α) :
    (((l.map f).dedup.map (fun b => ((l.filter (fun a => f a = b)).length : Int))).sum) =
      (l.length : Int) := by
  have hcount : ∀ b, (l.filter (fun a => decide (f a = b))).length = (l.map f).count b := by
    intro b
    rw [List.count_eq_countP, List.countP_map, List.countP_eq_length_filter]
    congr 1
  have hnat : ((l.map f).dedup.map (fun b => (l.filter (fun a => decide (f a = b))).length)).sum =
      l.length := by
    simp only [hcount]
    rw [List.sum_map_count_dedup_eq_length, List.length_map]
  rw [← hnat, Nat.cast_list_sum, List.map_map]
  rfl

/-- The `Packages` counts of the rows of the statement of `queryModules` add
up to the number of rollup rows with `total_loc > 0`. -/
theorem sqlModules_packages_sum (db : Store) :
    ((sqlModules db).map (fun row => row.Packages)).sum =
      ((db.treemap.filter nonTrivial).length : Int) := by
  have h1 : ((sqlModules db).map (fun row => row.Packages)).Perm
      ((sqlModuleNames db).map (fun m =>
        (((db.treemap.filter nonTrivial).filter (fun r => classify r.package = m)).length : Int))) := by
    unfold sqlModules
    refine ((List.perm_insertionSort _ _).map _).trans ?_
    rw [List.map_map]
    exact List.Perm.of_eq (List.map_congr_left (fun m _ => rfl))
  have h2 : ((sqlModuleNames db).map (fun m =>
        (((db.treemap.filter nonTrivial).filter (fun r => classify r.package = m)).length : Int))).Perm
      ((((db.treemap.filter nonTrivial).map (fun r => classify r.package)).dedup).map (fun m =>
        (((db.treemap.filter nonTrivial).filter (fun r => classify r.package = m)).length : Int))) := by
    unfold sqlModuleNames
    exact (List.perm_insertionSort _ _).map _
  rw [(h1.trans h2).sum_eq]
  exact sum_group_lengths (fun r : Rollup => classify r.package) (db.treemap.filter nonTrivial)

/-- C12: on a store on which all reads succeed, none of the three operations
returns an error, the length of the listing of `queryPackages` is the
`Packages` count of `queryStats` and the sum of the `Packages` counts of the
rows of `queryModules`, and the listing has exactly one entry per rollup row
with `total_loc > 0`: its entries, read as rollup rows, are those rows, each as
often as it occurs, whatever comments the packages have. -/
theorem package_counts_agree (db : Store) (h : ∀ q, db.fault q = Fault.none) :
    (queryPackages db).2 = none ∧ (queryStats db).2 = none ∧ (queryModules db).2 = none ∧
    ((queryPackages db).1.length : Int) = (queryStats db).1.Packages ∧
    ((queryPackages db).1.length : Int) =
      ((queryModules db).1.map (fun row => row.Packages)).sum ∧
    ((queryPackages db).1.map toRollup).Perm
      (db.treemap.filter (fun r => decide (0 < r.total_loc))) := by
  have hfilter : db.treemap.filter (fun r => nonTrivial r && (fun _ => true) r.package) =
      db.treemap.filter nonTrivial := by
    apply List.filter_congr
    intro r _
    simp
  have hperm : ((sqlPackagesWhere db (fun _ => true)).map toRollup).Perm
      (db.treemap.filter nonTrivial) := by
    have := sqlPackagesWhere_rollups db (fun _ => true)
    rwa [hfilter] at this
  have hlen : (sqlPackagesWhere db (fun _ => true)).length =
      (db.treemap.filter nonTrivial).length := by
    rw [← hperm.length_eq, List.length_map]
  rw [queryPackages_of_noFault db (h _), queryStats_of_noFault db h,
    queryModules_of_noFault db (h _)]
  refine ⟨rfl, rfl, rfl, ?_, ?_, hperm⟩
  · show ((sqlPackagesWhere db (fun _ => true)).length : Int) = sqlCountPackages db
    rw [hlen]
    rfl
  · show ((sqlPackagesWhere db (fun _ => true)).length : Int) = _
    rw [hlen]
    exact (sqlModules_packages_sum db).symm

/-- C12 at a store whose package `handler` has two package comments of equal
length: the listing has three entries. -/
theorem package_counts_agree_witness :
    (∀ q, tiedDocStore.fault q = Fault.none) ∧
    ((queryPackages tiedDocStore).2 = none ∧ (queryStats tiedDocStore).2 = none ∧
    (queryModules tiedDocStore).2 = none ∧
    ((queryPackages tiedDocStore).1.length : Int) = (queryStats tiedDocStore).1.Packages ∧
    ((queryPackages tiedDocStore).1.length : Int) =
      ((queryModules tiedDocStore).1.map (fun row => row.Packages)).sum ∧
    ((queryPackages tiedDocStore).1.map toRollup).Perm
      (tiedDocStore.treemap.filter (fun r => decide (0 < r.total_loc)))) ∧
    (queryPackages tiedDocStore).1.length = 3 :=
  ⟨fun _ => rfl, package_counts_agree tiedDocStore (fun _ => rfl), by decide⟩

end Graph
